import Mathlib

/-!
A shallow embedding of `tga2exr.cpp`

The program reads a 48-bit HDR Targa file (`loadTGAFile`), copies the samples
into an `Array<Rgba>` while reversing the row order (the loop in `main`) and
hands that buffer to the OpenEXR encoder (`saveEXRFile`).

Conventions of the embedding:

* `half` values are kept as their 16-bit patterns; they are only ever copied.
* `int` arithmetic is 32-bit two's complement: every `int` operation of the
  source is followed by `wrapInt`. The width of `size_t` is a parameter
  (`Target`).
* A read or write outside a buffer is `Fault.undefined`; a C++ exception that
  nobody catches is `Fault.raised`. Steps that can fail are chained with
  `andThen`.
* Loops carry fuel; the callers pass enough of it, and the theorems show that
  the fuel never runs out.
* Whether `malloc` grants a request, and the content of fresh memory and of
  uninitialised locals, are parameters of the run (`Env`); `new` is taken to
  succeed for every size that is not negative.
* `printf` calls are omitted: they do not influence any value.
-/

namespace Tga2Exr

/-! ## Machine values -/

/-- One octet of a file or of memory. -/
abbrev Byte := Fin 256

/-- The 16-bit pattern of an Imath `half`. -/
abbrev Half := Fin 65536

/-- The C type `unsigned short` (16 bits). -/
abbrev UShort := Fin 65536

/-- The record `Imf::Rgba` (ImfRgba.h): four `half` fields in the order r, g, b, a. -/
structure Rgba where
  r : Half
  g : Half
  b : Half
  a : Half
  deriving DecidableEq, Repr

/-- Ways in which a run can fail to produce a value. -/
inductive Fault
  | undefined
  | raised
  | outOfFuel
  deriving DecidableEq, Repr

/-- Reduction of a mathematical integer to the 32-bit two's complement `int`. -/
def wrapInt (x : Int) : Int := (x + 2147483648) % 4294967296 - 2147483648

/-- The half-precision encoding of `1.0f` (sign 0, exponent 15, mantissa 0). -/
def halfOne : Half := 0x3C00

/-! ## The remap loop of `main` (lines 127-137) -/

/-- The expression `imageData[idx]` for an `int` index. -/
def readSample (imageData : List Half) (idx : Int) : Except Fault Half :=
  if idx < 0 then .error .undefined
  else
    match imageData[idx.toNat]? with
    | some v => .ok v
    | none => .error .undefined

/-- Sequencing of two steps of a run: a fault in the first step ends the run,
otherwise the second step continues with the value of the first. -/
def andThen {α β : Type} (x : Except Fault α) (f : α → Except Fault β) : Except Fault β :=
  match x with
  | .error e => .error e
  | .ok a => f a

/-- The value of the `int` index expression `(r*width + c)*3`. -/
def sampleIndex (width r c : Int) : Int :=
  wrapInt (wrapInt (wrapInt (r * width) + c) * 3)

/-- The three reads of one iteration of the inner loop, with the constant alpha:
`imageData[(r*width + c)*3]`, `... + 1`, `... + 2` and `1.0f`. -/
def remapPixel (imageData : List Half) (width r c : Int) : Except Fault Rgba :=
  andThen (readSample imageData (sampleIndex width r c)) fun pr =>
  andThen (readSample imageData (wrapInt (sampleIndex width r c + 1))) fun pg =>
  andThen (readSample imageData (wrapInt (sampleIndex width r c + 2))) fun pb =>
  .ok ⟨pr, pg, pb, halfOne⟩

/-- The assignment to the four fields of `pixels[i]`. -/
def writePixel (pixels : List Rgba) (i : Int) (p : Rgba) : Except Fault (List Rgba) :=
  if i < 0 then .error .undefined
  else if i.toNat < pixels.length then .ok (pixels.set i.toNat p)
  else .error .undefined

/-- The destination while the loops run: the records of the array and, for the
record of what the loops did, one entry `(i, k)` per completed iteration of the
inner loop, in order: that iteration assigned `pixels[i]` from `imageData[k]`,
`imageData[k+1]` and `imageData[k+2]`. -/
structure Dest where
  pixels : List Rgba
  log : List (Int × Int)

/-- The loop `for (int c=0; c < width; c++, i++)`; the state is `(c, i, pixels)`,
the result the final `i` and destination. -/
def innerLoop (imageData : List Half) (width r : Int) :
    Nat → Int → Int → Dest → Except Fault (Int × Dest)
  | 0, _, _, _ => .error .outOfFuel
  | fuel + 1, c, i, d =>
    if c < width then
      andThen (remapPixel imageData width r c) fun p =>
      andThen (writePixel d.pixels i p) fun pixels' =>
      innerLoop imageData width r fuel (wrapInt (c + 1)) (wrapInt (i + 1))
        ⟨pixels', d.log ++ [(i, sampleIndex width r c)]⟩
    else .ok (i, d)

/-- The loop `for (int i=0, r=height-1; r >= 0; r--)`; the state is `(r, i, pixels)`. -/
def outerLoop (imageData : List Half) (width : Int) :
    Nat → Int → Int → Dest → Except Fault Dest
  | 0, _, _, _ => .error .outOfFuel
  | fuel + 1, r, i, d =>
    if r ≥ 0 then
      andThen (innerLoop imageData width r (width.toNat + 1) 0 i d) fun st =>
      outerLoop imageData width fuel (wrapInt (r - 1)) st.1 st.2
    else .ok d

/-- The allocation `new Rgba[size]`, made by the constructor
`Array<Rgba>(long size)` and once more by `resizeErase(size)`: it throws for a
negative size; the fresh records are not initialised, their content is
whatever `heap` holds. -/
def newArray (heap : Nat → Rgba) (size : Int) : Except Fault (List Rgba) :=
  if size < 0 then .error .raised
  else .ok ((List.range size.toNat).map heap)

/-- Lines 127-137 of `main`: allocation of the destination and the two loops.
`width` and `height` are the `unsigned short` locals, promoted to `int` in
every expression. -/
def remap (heap : Nat → Rgba) (width height : UShort) (imageData : List Half) :
    Except Fault Dest :=
  andThen (newArray heap (wrapInt ((width.val : Int) * (height.val : Int)))) fun _ =>
  andThen (newArray heap (wrapInt ((height.val : Int) * (width.val : Int)))) fun pixels =>
  outerLoop imageData (width.val : Int) (height.val + 1) (wrapInt ((height.val : Int) - 1)) 0
    ⟨pixels, []⟩

/-! ## Streams and `fread` -/

/-- The platform parameter the source leaves open: the width of `size_t`. -/
inductive Target
  | bits32
  | bits64
  deriving DecidableEq, Repr

/-- Number of bits of `size_t` on the target. -/
def Target.sizeBits : Target → Nat
  | .bits32 => 32
  | .bits64 => 64

/-- Conversion of an integer value to `size_t` (reduction modulo `2 ^ sizeBits`). -/
def toSizeT (t : Target) (x : Int) : Nat := (x % (2 ^ t.sizeBits : Nat)).toNat

/-- The value of `sizeof(half)`. -/
def sizeofHalf : Nat := 2

/-- The value of `sizeof(Rgba)`: four `half` fields without padding. -/
def sizeofRgba : Nat := 8

/-- A stream opened for reading: the bytes of the file, the read position and
whether the handle is still open (`fopen_s` sets it; the source contains no
`fclose` that would clear it). -/
structure FILE where
  content : List Byte
  pos : Nat
  isOpen : Bool
  deriving DecidableEq, Repr

/-- The call `fread(ptr, size, count, f)`. The library forms the number of
bytes to transfer, `size * count`, in `size_t`. The result is the bytes that
were transferred (those of an incomplete last element included: they are
stored as well), the returned count (`count` itself when every requested byte
arrived, otherwise the number of complete elements), and the stream
afterwards. -/
def fread (t : Target) (size count : Nat) (f : FILE) : List Byte × Nat × FILE :=
  let want := (size * count) % 2 ^ t.sizeBits
  let avail := f.content.length - f.pos
  let moved := min want avail
  ((f.content.drop f.pos).take moved,
    if want = 0 then 0 else if moved = want then count else moved / size,
    { f with pos := f.pos + moved })

/-- The 16-bit value stored in two consecutive bytes on the little-endian machine. -/
def mkU16 (lo hi : Byte) : Fin 65536 := ⟨lo.val + 256 * hi.val, by omega⟩

/-- The byte at the higher address of a 16-bit object. -/
def hiByte (v : Fin 65536) : Byte := ⟨v.val / 256, by omega⟩

/-- The content of a 2-byte object after a read that delivered `data` into it:
the new value when both bytes arrived; when only one arrived it replaces the
byte at the lower address; otherwise the value `old` it had. -/
def u16Of (data : List Byte) (old : Fin 65536) : Fin 65536 :=
  match data with
  | [lo, hi] => mkU16 lo hi
  | [lo] => mkU16 lo (hiByte old)
  | _ => old

/-- The value of a `char` object holding byte `b` (`char` is signed here). -/
def toChar (b : Byte) : Int := if b.val < 128 then b.val else (b.val : Int) - 256

/-- The content of a 1-byte object after a read that delivered `data`. -/
def u8Of (data : List Byte) (old : Byte) : Byte :=
  match data with
  | [b] => b
  | _ => old

/-- The `half` array `buf` after the bytes `data` were stored from its start:
two bytes per element, a last single byte replacing the lower byte of its
element, the elements behind unchanged. -/
def storeBytes : List Byte → List Half → List Half
  | lo :: hi :: rest, _ :: buf => mkU16 lo hi :: storeBytes rest buf
  | [lo], old :: buf => mkU16 lo (hiByte old) :: buf
  | _, buf => buf

/-! ## `loadTGAFile` (lines 27-59) -/

/-- The result of `malloc(bytes)` seen as an array of `half`: `none` is NULL, a
request the allocator refuses (`mallocOk` is its decision); otherwise room for
`bytes / 2` values with the content the heap happens to hold. -/
def mallocHalves (mallocOk : Nat → Bool) (heap : Nat → Half) (bytes : Nat) :
    Option (List Half) :=
  if mallocOk bytes then some ((List.range (bytes / sizeofHalf)).map heap) else none

/-- The value of the `int` expression `width*height*3` of lines 55 and 56. -/
def sampleCount (width height : UShort) : Int :=
  wrapInt (wrapInt ((width.val : Int) * (height.val : Int)) * 3)

/-- The argument of `malloc` on line 55: `width*height*3*sizeof(half)`, the
`int` product converted to `size_t` and multiplied there. -/
def allocBytes (t : Target) (width height : UShort) : Nat :=
  (toSizeT t (sampleCount width height) * sizeofHalf) % 2 ^ t.sizeBits

/-- The buffer `imageData` after the read of line 56 delivered `data`, which is
also the value `loadTGAFile` returns. The bytes are stored from the start of
the buffer; a read that delivers nothing stores nothing; a store through the
null pointer or past the end of the allocation is undefined behaviour. -/
def storeData (data : List Byte) (imageData : Option (List Half)) :
    Except Fault (Option (List Half)) :=
  match imageData, data with
  | none, [] => .ok none
  | none, _ :: _ => .error .undefined
  | some buf, data =>
    if data.length ≤ sizeofHalf * buf.length then .ok (some (storeBytes data buf))
    else .error .undefined

/-- What `loadTGAFile` leaves behind: the two reference parameters, the stream
it opened (if any) in its state at return, and the returned pointer (`none` is
`NULL`, otherwise the buffer it points to). -/
structure Loaded where
  width : UShort
  height : UShort
  infile : Option FILE
  ret : Except Fault (Option (List Half))

/-- The locals of `loadTGAFile` after the five reads of lines 43-47. -/
structure HeaderRead where
  width : UShort
  height : UShort
  bitdepth : Int
  infile : FILE

/-- Lines 41-47 of `loadTGAFile`: the reads of the header. `width` and `height`
are the values the caller's variables hold on entry, `bitdepth0` is the
content of the uninitialised local `bitdepth`. -/
def readHeader (t : Target) (bitdepth0 : Byte) (width height : UShort) (infile : FILE) :
    HeaderRead :=
  let (_, _, infile) := fread t 1 12 infile
  let (dw, _, infile) := fread t 2 1 infile
  let width := u16Of dw width
  let (dh, _, infile) := fread t 2 1 infile
  let height := u16Of dh height
  let (db, _, infile) := fread t 1 1 infile
  let bitdepth := toChar (u8Of db bitdepth0)
  let (_, _, infile) := fread t 1 1 infile
  ⟨width, height, bitdepth, infile⟩

/-- Lines 55-58 of `loadTGAFile`: the allocation, whose result is not tested,
and the read of the samples into it. -/
def readPayload (t : Target) (mallocOk : Nat → Bool) (heap : Nat → Half)
    (width height : UShort) (infile : FILE) : Loaded :=
  let imageData := mallocHalves mallocOk heap (allocBytes t width height)
  let read := fread t sizeofHalf (toSizeT t (sampleCount width height)) infile
  ⟨width, height, some read.2.2, storeData read.1 imageData⟩

/-- The function `loadTGAFile`. `files` is the file system (`none`: the file
cannot be opened), `mallocOk` the allocator's decision for a request, `heap`
the content of fresh memory; `width`, `height` and `bitdepth0` are as in
`readHeader`. -/
def loadTGAFile (t : Target) (files : String → Option (List Byte)) (mallocOk : Nat → Bool)
    (heap : Nat → Half) (bitdepth0 : Byte) (filename : Option String) (width height : UShort) :
    Loaded :=
  match filename with
  | none => ⟨width, height, none, .ok none⟩
  | some name =>
    match files name with
    | none => ⟨width, height, none, .ok none⟩
    | some bytes =>
      let hdr := readHeader t bitdepth0 width height ⟨bytes, 0, true⟩
      if hdr.bitdepth ≠ 48 then ⟨hdr.width, hdr.height, some hdr.infile, .ok none⟩
      else readPayload t mallocOk heap hdr.width hdr.height hdr.infile

/-! ## `saveEXRFile` (lines 64-108) -/

/-- The enumeration `Imf::PixelType`. -/
inductive PixelType
  | UINT
  | HALF
  | FLOAT
  deriving DecidableEq, Repr

/-- A channel description `Imf::Channel`; only its type is set by the source. -/
structure Channel where
  type : PixelType
  deriving DecidableEq, Repr

/-- The part of `Imf::Header` the source fills in. -/
structure Header where
  width : Int
  height : Int
  channels : List (String × Channel)
  deriving DecidableEq, Repr

/-- A binding `Imf::Slice`: `base` is the byte offset of the first element from
the start of the pixel buffer, the strides are in bytes. -/
structure Slice where
  type : PixelType
  base : Nat
  xStride : Nat
  yStride : Nat
  deriving DecidableEq, Repr

/-- The map `Imf::FrameBuffer` from channel names to slices. -/
abbrev FrameBuffer := List (String × Slice)

/-- The `insert` of `ChannelList` and of `FrameBuffer`: the entry for `name` is
replaced if there is one, added otherwise. -/
def mapInsert {α : Type} (m : List (String × α)) (name : String) (v : α) : List (String × α) :=
  m.filter (fun e => e.1 != name) ++ [(name, v)]

/-- Byte offset of the field `r` in an `Rgba` record. -/
def offsetR : Nat := 0

/-- Byte offset of the field `g` in an `Rgba` record. -/
def offsetG : Nat := 2

/-- Byte offset of the field `b` in an `Rgba` record. -/
def offsetB : Nat := 4

/-- Byte offset of the field `a` in an `Rgba` record. -/
def offsetA : Nat := 6

/-- The calls into the OpenEXR encoder that `saveEXRFile` makes. -/
inductive EncOp
  | outputFile (path : String) (header : Header)
  | setFrameBuffer (fb : FrameBuffer)
  | writePixels (numScanLines : Int)
  deriving DecidableEq, Repr

/-- Lines 76-79: the header with its three channels. -/
def buildHeader (width height : Int) : Header :=
  let header : Header := ⟨width, height, []⟩
  let header := { header with channels := mapInsert header.channels "R" ⟨.HALF⟩ }
  let header := { header with channels := mapInsert header.channels "G" ⟨.HALF⟩ }
  { header with channels := mapInsert header.channels "B" ⟨.HALF⟩ }

/-- The expression `sizeof (Rgba) * width`, computed in `size_t`. -/
def rowStride (t : Target) (width : Int) : Nat :=
  (sizeofRgba * toSizeT t width) % 2 ^ t.sizeBits

/-- Lines 85-102: the frame buffer with its three slices. -/
def buildFrameBuffer (t : Target) (width : Int) : FrameBuffer :=
  let frameBuffer : FrameBuffer := []
  let frameBuffer := mapInsert frameBuffer "R" ⟨.HALF, offsetR, sizeofRgba, rowStride t width⟩
  let frameBuffer := mapInsert frameBuffer "G" ⟨.HALF, offsetG, sizeofRgba, rowStride t width⟩
  mapInsert frameBuffer "B" ⟨.HALF, offsetB, sizeofRgba, rowStride t width⟩

/-- What a call of `saveEXRFile` did: the encoder calls it made, in order, and
its result (`Fault.raised` when an encoder call threw). -/
structure Saved where
  ops : List EncOp
  ret : Except Fault Bool

/-- The function `saveEXRFile`. `raises` tells which encoder calls throw;
`filename` and `imageData` are `none` for null pointers. -/
def saveEXRFile (t : Target) (raises : EncOp → Bool) (filename : Option String)
    (width height : Int) (imageData : Option (List Rgba)) : Saved :=
  match filename, imageData with
  | some path, some _ =>
    if width ≤ 0 ∨ height ≤ 0 then ⟨[], .ok false⟩
    else
      let create := EncOp.outputFile path (buildHeader width height)
      if raises create then ⟨[create], .error .raised⟩
      else
        let bind := EncOp.setFrameBuffer (buildFrameBuffer t width)
        if raises bind then ⟨[create, bind], .error .raised⟩
        else
          let write := EncOp.writePixels height
          if raises write then ⟨[create, bind, write], .error .raised⟩
          else ⟨[create, bind, write], .ok true⟩
  | _, _ => ⟨[], .ok false⟩

/-! ## The memory the encoder reads -/

/-- The two bytes of a `half` in memory (little-endian). -/
def halfBytes (v : Half) : List Byte :=
  [⟨v.val % 256, Nat.mod_lt _ (by decide)⟩, ⟨v.val / 256, by omega⟩]

/-- The eight bytes of an `Rgba` record. -/
def rgbaBytes (p : Rgba) : List Byte :=
  halfBytes p.r ++ halfBytes p.g ++ halfBytes p.b ++ halfBytes p.a

/-- The bytes of the pixel buffer, record after record. -/
def bufferBytes : List Rgba → List Byte
  | [] => []
  | p :: ps => rgbaBytes p ++ bufferBytes ps

/-- The `half` stored at byte offset `off` of a memory region. -/
def loadHalf (mem : List Byte) (off : Nat) : Option Half :=
  match mem[off]?, mem[off + 1]? with
  | some lo, some hi => some (mkU16 lo hi)
  | _, _ => none

/-- The value the encoder takes for position `(x, y)` through a slice: the
element at `base + x * xStride + y * yStride` (OpenEXR's addressing rule). -/
def sliceRead (pixels : List Rgba) (s : Slice) (x y : Nat) : Option Half :=
  loadHalf (bufferBytes pixels) (s.base + x * s.xStride + y * s.yStride)

/-- The slice bound to a channel name, if any. -/
def findSlice (fb : FrameBuffer) (name : String) : Option Slice :=
  (fb.find? (fun e => e.1 == name)).map (fun e => e.2)

/-! ## `main` (lines 114-149) -/

/-- Everything the environment decides for one run of the program. -/
structure Env where
  target : Target
  files : String → Option (List Byte)
  width0 : UShort
  height0 : UShort
  bitdepth0 : Byte
  mallocOk : Nat → Bool
  heapHalf : Nat → Half
  heapRgba : Nat → Rgba
  encoderRaises : EncOp → Bool

/-- The arguments of the call of `saveEXRFile` on line 142. -/
structure SaveArgs where
  filename : Option String
  width : Int
  height : Int
  imageData : Option (List Rgba)

/-- A run of `main`: what `loadTGAFile` left (if it was called), the
destination buffer of lines 127-137 (if it was built), the call of
`saveEXRFile` with its outcome (if it was made), and the exit code, or the
fault that ended the process instead. -/
structure Run where
  loaded : Option Loaded
  pixels : Option (List Rgba)
  saved : Option (SaveArgs × Saved)
  exit : Except Fault Int

/-- The end of `main` (lines 143-148): the messages differ with the result of
`saveEXRFile`, the returned value is 0 in both cases; an exception thrown by
the encoder is not caught. -/
def mainExit (ret : Except Fault Bool) : Except Fault Int :=
  match ret with
  | .error f => .error f
  | .ok _ => .ok 0

/-- Lines 139-148 of `main`, entered with the outcome `dest` of the remap of
lines 127-137: the call of `saveEXRFile` and the return. -/
def mainAfterRemap (env : Env) (argv : List String) (ld : Loaded)
    (dest : Except Fault Dest) : Run :=
  match dest with
  | .error f => ⟨some ld, none, none, .error f⟩
  | .ok dest =>
    let pixels := dest.pixels
    let args : SaveArgs := ⟨argv[2]?, ld.width.val, ld.height.val, some pixels⟩
    let sv := saveEXRFile env.target env.encoderRaises args.filename args.width args.height
      args.imageData
    ⟨some ld, some pixels, some (args, sv), mainExit sv.ret⟩

/-- Lines 123-148 of `main`, entered with what `loadTGAFile` returned. -/
def mainAfterLoad (env : Env) (argv : List String) (ld : Loaded) : Run :=
  match ld.ret with
  | .error f => ⟨some ld, none, none, .error f⟩
  | .ok none => ⟨some ld, none, none, .ok (-1)⟩
  | .ok (some imageData) =>
    mainAfterRemap env argv ld (remap env.heapRgba ld.width ld.height imageData)

/-- The function `main`; `argv` holds the `argc` argument strings. -/
def main (env : Env) (argv : List String) : Run :=
  if argv.length < 3 then ⟨none, none, none, .ok (-1)⟩
  else
    mainAfterLoad env argv
      (loadTGAFile env.target env.files env.mallocOk env.heapHalf env.bitdepth0 argv[1]?
        env.width0 env.height0)

/-! ## Auxiliary definitions for the statements -/

/-- The record the remap loop is meant to produce for source row `r`, column
`c` of a `w`-wide image: the three samples of that pixel and alpha one. -/
def sourcePixel (src : List Half) (w r c : Nat) : Rgba :=
  ⟨src.getD ((r * w + c) * 3) 0, src.getD ((r * w + c) * 3 + 1) 0,
    src.getD ((r * w + c) * 3 + 2) 0, halfOne⟩

/-- The colour fields of a pixel buffer read in order: `r`, `g`, `b` of record
0, then of record 1, and so on. -/
def rgbOf : List Rgba → List Half
  | [] => []
  | p :: ps => p.r :: p.g :: p.b :: rgbOf ps

/-- A heap whose fresh records are all zero, for the concrete runs. -/
def zeroRgba : Nat → Rgba := fun _ => ⟨0, 0, 0, 0⟩

/-- The samples of a 3×3 source image: sample `k` has the value `k`. -/
def image3x3 : List Half :=
  [0, 1, 2, 3, 4, 5, 6, 7, 8, 9, 10, 11, 12, 13, 14, 15, 16, 17, 18, 19, 20, 21, 22, 23, 24, 25, 26]

/-- An 18-byte Targa header with the given width, height and bit-depth bytes. -/
def headerBytes (w0 w1 h0 h1 depth : Byte) : List Byte :=
  [0, 0, 2, 0, 0, 0, 0, 0, 0, 0, 0, 0, w0, w1, h0, h1, depth, 0]

/-- An environment for the concrete runs: every path opens the file `bytes`,
`malloc` grants requests of up to 2^31 - 1 bytes, uninitialised memory is zero,
and the encoder never throws. -/
def envOf (t : Target) (bytes : List Byte) : Env :=
  ⟨t, fun _ => some bytes, 0, 0, 0, fun n => decide (n ≤ 2147483647), fun _ => 0, zeroRgba,
    fun _ => false⟩

/-- A complete file: the header of a 1×2 image at 48 bits and its six samples
1, 2, 3 (row 0) and 4, 5, 6 (row 1). -/
def sampleFile : List Byte :=
  headerBytes 1 0 2 0 48 ++ [1, 0, 2, 0, 3, 0, 4, 0, 5, 0, 6, 0]

/-- The file `sampleFile` with other values in bytes 0..11 and in byte 17. -/
def sampleFileAlt : List Byte :=
  [9, 8, 7, 6, 5, 4, 3, 2, 1, 9, 8, 7, 1, 0, 2, 0, 48, 255] ++
    [1, 0, 2, 0, 3, 0, 4, 0, 5, 0, 6, 0]

/-! ## Unfolding lemmas -/

theorem andThen_ok {α β : Type} (a : α) (f : α → Except Fault β) :
    andThen (.ok a) f = f a := rfl

theorem andThen_error {α β : Type} (e : Fault) (f : α → Except Fault β) :
    andThen (.error e) f = .error e := rfl

theorem remapPixel_def (src : List Half) (w r c : Int) :
    remapPixel src w r c =
      andThen (readSample src (sampleIndex w r c)) fun pr =>
      andThen (readSample src (wrapInt (sampleIndex w r c + 1))) fun pg =>
      andThen (readSample src (wrapInt (sampleIndex w r c + 2))) fun pb =>
      .ok ⟨pr, pg, pb, halfOne⟩ := rfl

theorem innerLoop_succ (src : List Half) (w r c i : Int) (d : Dest) (fuel : Nat) :
    innerLoop src w r (fuel + 1) c i d =
      if c < w then
        andThen (remapPixel src w r c) fun p =>
        andThen (writePixel d.pixels i p) fun pixels' =>
        innerLoop src w r fuel (wrapInt (c + 1)) (wrapInt (i + 1))
          ⟨pixels', d.log ++ [(i, sampleIndex w r c)]⟩
      else .ok (i, d) := rfl

theorem outerLoop_succ (src : List Half) (w r i : Int) (d : Dest) (fuel : Nat) :
    outerLoop src w (fuel + 1) r i d =
      if r ≥ 0 then
        andThen (innerLoop src w r (w.toNat + 1) 0 i d) fun st =>
        outerLoop src w fuel (wrapInt (r - 1)) st.1 st.2
      else .ok d := rfl

theorem remap_def (heap : Nat → Rgba) (width height : UShort) (src : List Half) :
    remap heap width height src =
      andThen (newArray heap (wrapInt ((width.val : Int) * (height.val : Int)))) fun _ =>
      andThen (newArray heap (wrapInt ((height.val : Int) * (width.val : Int)))) fun pixels =>
      outerLoop src (width.val : Int) (height.val + 1) (wrapInt ((height.val : Int) - 1)) 0
        ⟨pixels, []⟩ := rfl

/-! ## The remap loop without overflow -/

theorem wrapInt_eq_self (x : Int) (h1 : -2147483648 ≤ x) (h2 : x < 2147483648) :
    wrapInt x = x := by
  unfold wrapInt; omega

theorem wrapInt_natCast (n : Nat) (h : n < 2147483648) : wrapInt (n : Int) = (n : Int) :=
  wrapInt_eq_self _ (by omega) (by omega)

theorem wrapInt_natCast_add (n k : Nat) (h : n + k < 2147483648) :
    wrapInt ((n : Int) + (k : Int)) = ((n + k : Nat) : Int) := by
  rw [wrapInt_eq_self _ (by omega) (by omega)]; omega

theorem wrapInt_natCast_succ (n : Nat) (h : n + 1 < 2147483648) :
    wrapInt ((n : Int) + 1) = ((n + 1 : Nat) : Int) := by
  rw [wrapInt_eq_self _ (by omega) (by omega)]; omega

theorem wrapInt_natCast_add_two (n : Nat) (h : n + 2 < 2147483648) :
    wrapInt ((n : Int) + 2) = ((n + 2 : Nat) : Int) := by
  rw [wrapInt_eq_self _ (by omega) (by omega)]; omega

theorem wrapInt_natCast_mul_three (n : Nat) (h : n * 3 < 2147483648) :
    wrapInt ((n : Int) * 3) = ((n * 3 : Nat) : Int) := by
  rw [wrapInt_eq_self _ (by omega) (by omega)]; omega

theorem wrapInt_natCast_pred (n : Nat) (h : n < 2147483648) :
    wrapInt ((n : Int) - 1) = (n : Int) - 1 :=
  wrapInt_eq_self _ (by omega) (by omega)

theorem readSample_natCast (src : List Half) (k : Nat) (hk : k < src.length) :
    readSample src (k : Int) = .ok (src.getD k 0) := by
  unfold readSample
  have h0 : ¬ ((k : Int) < 0) := by omega
  simp only [h0, if_false, Int.toNat_natCast]
  rw [List.getElem?_eq_getElem hk, List.getD_eq_getElem _ _ hk]

theorem sampleIndex_natCast (w r c : Nat) (hk : (r * w + c) * 3 < 2147483648) :
    sampleIndex (w : Int) (r : Int) (c : Int) = (((r * w + c) * 3 : Nat) : Int) := by
  obtain ⟨m, hm⟩ : ∃ m : Nat, m = r * w := ⟨_, rfl⟩
  have hmi : (r : Int) * (w : Int) = (m : Int) := by rw [hm]; push_cast; rfl
  rw [← hm] at hk ⊢
  unfold sampleIndex
  rw [hmi, wrapInt_natCast m (by omega), wrapInt_natCast_add m c (by omega),
    wrapInt_natCast_mul_three (m + c) hk]

theorem remapPixel_eq (src : List Half) (w r c : Nat)
    (hk : (r * w + c) * 3 + 2 < src.length) (hlen : src.length ≤ 2147483648) :
    remapPixel src (w : Int) (r : Int) (c : Int) = .ok (sourcePixel src w r c) := by
  obtain ⟨k, hkk⟩ : ∃ k : Nat, k = (r * w + c) * 3 := ⟨_, rfl⟩
  have e0 : sampleIndex (w : Int) (r : Int) (c : Int) = (k : Int) := by
    rw [hkk]; exact sampleIndex_natCast w r c (by omega)
  rw [← hkk] at hk
  rw [remapPixel_def, e0, wrapInt_natCast_succ k (by omega), wrapInt_natCast_add_two k (by omega),
    readSample_natCast src k (by omega),
    readSample_natCast src (k + 1) (by omega),
    readSample_natCast src (k + 2) (by omega), hkk]
  rfl

theorem writePixel_natCast (pixels : List Rgba) (i : Nat) (p : Rgba) (hi : i < pixels.length) :
    writePixel pixels (i : Int) p = .ok (pixels.set i p) := by
  unfold writePixel
  have h0 : ¬ ((i : Int) < 0) := by omega
  simp only [h0, if_false, Int.toNat_natCast, hi, if_true]

theorem innerLoop_spec (src : List Half) (w r i0 : Nat)
    (hsrc : (r * w + w) * 3 ≤ src.length) (hlen : src.length ≤ 2147483648) :
    ∀ (n c : Nat) (d : Dest), c + n = w → i0 + w ≤ d.pixels.length →
      d.pixels.length < 2147483648 → d.log.length = i0 + c → ∀ fuel, n < fuel →
      ∃ d', innerLoop src (w : Int) (r : Int) fuel (c : Int) ((i0 + c : Nat) : Int) d
          = .ok (((i0 + w : Nat) : Int), d') ∧
        d'.pixels.length = d.pixels.length ∧
        (∀ j, j < i0 + c → d'.pixels[j]? = d.pixels[j]?) ∧
        (∀ j, i0 + w ≤ j → d'.pixels[j]? = d.pixels[j]?) ∧
        (∀ c', c ≤ c' → c' < w → d'.pixels[i0 + c']? = some (sourcePixel src w r c')) ∧
        d'.log.length = i0 + w ∧
        (∀ j, j < i0 + c → d'.log[j]? = d.log[j]?) ∧
        (∀ c', c ≤ c' → c' < w →
          d'.log[i0 + c']? = some (((i0 + c' : Nat) : Int), (((r * w + c') * 3 : Nat) : Int))) := by
  intro n
  induction n with
  | zero =>
    intro c d hc _ _ hlog fuel hfuel
    obtain ⟨f, rfl⟩ : ∃ f, fuel = f + 1 := ⟨fuel - 1, by omega⟩
    have hcw : c = w := by omega
    subst hcw
    refine ⟨d, ?_, rfl, fun _ _ => rfl, fun _ _ => rfl, fun c' h1 h2 => by omega, hlog,
      fun _ _ => rfl, fun c' h1 h2 => by omega⟩
    rw [innerLoop_succ, if_neg (by omega)]
  | succ n ih =>
    intro c d hc hpix hplen hlog fuel hfuel
    obtain ⟨f, rfl⟩ : ∃ f, fuel = f + 1 := ⟨fuel - 1, by omega⟩
    have hcw : (c : Int) < (w : Int) := by omega
    have hk : (r * w + c) * 3 + 2 < src.length := by
      have h1 : (r * w + w) * 3 = (r * w) * 3 + w * 3 := by ring
      have h2 : (r * w + c) * 3 = (r * w) * 3 + c * 3 := by ring
      omega
    obtain ⟨d', hrun, hl, hlo, hhi, hrow, hll, hlpre, hlrow⟩ :=
      ih (c + 1)
        ⟨d.pixels.set (i0 + c) (sourcePixel src w r c),
          d.log ++ [(((i0 + c : Nat) : Int), (((r * w + c) * 3 : Nat) : Int))]⟩
        (by omega)
        (by simp only [List.length_set]; exact hpix)
        (by simp only [List.length_set]; exact hplen)
        (by simp only [List.length_append, List.length_singleton]; omega) f (by omega)
    simp only [List.length_set] at hl
    refine ⟨d', ?_, hl, ?_, ?_, ?_, hll, ?_, ?_⟩
    · rw [innerLoop_succ, if_pos hcw, remapPixel_eq src w r c hk hlen, andThen_ok,
        writePixel_natCast d.pixels (i0 + c) _ (by omega), andThen_ok,
        wrapInt_natCast_succ c (by omega), wrapInt_natCast_succ (i0 + c) (by omega),
        sampleIndex_natCast w r c (by omega)]
      exact hrun
    · intro j hj
      rw [hlo j (by omega)]
      exact List.getElem?_set_ne (by omega)
    · intro j hj
      rw [hhi j hj]
      exact List.getElem?_set_ne (by omega)
    · intro c' h1 h2
      rcases Nat.eq_or_lt_of_le h1 with h | h
      · subst h
        rw [hlo (i0 + c) (by omega)]
        exact List.getElem?_set_self (by omega)
      · exact hrow c' (by omega) h2
    · intro j hj
      rw [hlpre j (by omega)]
      exact List.getElem?_append_left (by omega)
    · intro c' h1 h2
      rcases Nat.eq_or_lt_of_le h1 with h | h
      · subst h
        rw [hlpre (i0 + c) (by omega)]
        show (d.log ++ [_])[i0 + c]? = _
        rw [List.getElem?_append_right (by omega), hlog, Nat.sub_self]
        rfl
      · exact hlrow c' (by omega) h2

theorem outerLoop_spec (src : List Half) (w h : Nat)
    (hsrc : w * h * 3 ≤ src.length) (hlen : src.length ≤ 2147483648)
    (hw : w < 2147483648) (hh : h < 2147483648) :
    ∀ (m : Nat) (d : Dest), m ≤ h → d.pixels.length = w * h →
      d.pixels.length < 2147483648 → d.log.length = (h - m) * w → ∀ fuel, m < fuel →
      ∃ d', outerLoop src (w : Int) fuel ((m : Int) - 1) (((h - m) * w : Nat) : Int) d
          = .ok d' ∧
        d'.pixels.length = d.pixels.length ∧
        (∀ j, j < (h - m) * w → d'.pixels[j]? = d.pixels[j]?) ∧
        (∀ r c, r < m → c < w →
          d'.pixels[(h - 1 - r) * w + c]? = some (sourcePixel src w r c)) ∧
        d'.log.length = h * w ∧
        (∀ j, j < (h - m) * w → d'.log[j]? = d.log[j]?) ∧
        (∀ r c, r < m → c < w →
          d'.log[(h - 1 - r) * w + c]? =
            some ((((h - 1 - r) * w + c : Nat) : Int), (((r * w + c) * 3 : Nat) : Int))) := by
  intro m
  induction m with
  | zero =>
    intro d _ _ _ hlog fuel hfuel
    obtain ⟨f, rfl⟩ : ∃ f, fuel = f + 1 := ⟨fuel - 1, by omega⟩
    refine ⟨d, ?_, rfl, fun _ _ => rfl, fun r c hr _ => by omega, by rw [hlog]; rfl,
      fun _ _ => rfl, fun r c hr _ => by omega⟩
    rw [outerLoop_succ, if_neg (by omega)]
  | succ m ih =>
    intro d hm hpl hplen hlog fuel hfuel
    obtain ⟨f, rfl⟩ : ∃ f, fuel = f + 1 := ⟨fuel - 1, by omega⟩
    obtain ⟨i0, hi0⟩ : ∃ i0 : Nat, i0 = (h - (m + 1)) * w := ⟨_, rfl⟩
    have hnext : (h - m) * w = i0 + w := by
      have e : h - m = (h - (m + 1)) + 1 := by omega
      rw [e, hi0]; ring
    have hrows : (m + 1) * w ≤ h * w := Nat.mul_le_mul_right w hm
    have hrows2 : (h - m) * w ≤ h * w := Nat.mul_le_mul_right w (Nat.sub_le h m)
    have hwh : w * h = h * w := Nat.mul_comm w h
    have hsrcrow : (m * w + w) * 3 ≤ src.length := by
      have e : (m + 1) * w = m * w + w := by ring
      omega
    obtain ⟨d1, hrun1, hl1, hlo1, _, hrow1, hll1, hlpre1, hlrow1⟩ :=
      innerLoop_spec src w m i0 hsrcrow hlen w 0 d (by omega) (by omega) hplen
        (by rw [hlog, ← hi0]; rfl) (w + 1) (by omega)
    simp only [Nat.cast_zero, Nat.add_zero] at hrun1
    obtain ⟨d2, hrun2, hl2, hlo2, hrow2, hll2, hlpre2, hlrow2⟩ :=
      ih d1 (by omega) (by rw [hl1]; exact hpl) (by rw [hl1]; exact hplen)
        (by rw [hll1, hnext]) f (by omega)
    have hr0 : (((m + 1 : Nat) : Int) - 1) = (m : Int) := by omega
    have hidx : ∀ c, (h - 1 - m) * w + c = i0 + c := by
      intro c
      rw [hi0]
      have : h - 1 - m = h - (m + 1) := by omega
      rw [this]
    refine ⟨d2, ?_, by rw [hl2, hl1], ?_, ?_, hll2, ?_, ?_⟩
    · rw [outerLoop_succ, hr0, if_pos (by omega), Int.toNat_natCast, ← hi0, hrun1, andThen_ok,
        wrapInt_natCast_pred m (by omega), ← hnext]
      exact hrun2
    · intro j hj
      rw [hlo2 j (by omega), hlo1 j (by omega)]
    · intro r c hr hc
      rcases Nat.eq_or_lt_of_le (Nat.le_of_lt_succ hr) with h1 | h1
      · subst h1
        rw [hidx c, hlo2 (i0 + c) (by omega)]
        exact hrow1 c (by omega) hc
      · exact hrow2 r c h1 hc
    · intro j hj
      rw [hlpre2 j (by omega), hlpre1 j (by omega)]
    · intro r c hr hc
      rcases Nat.eq_or_lt_of_le (Nat.le_of_lt_succ hr) with h1 | h1
      · subst h1
        rw [hidx c, hlpre2 (i0 + c) (by omega)]
        exact hlrow1 c (by omega) hc
      · exact hlrow2 r c h1 hc

theorem newArray_natCast (heap : Nat → Rgba) (n : Nat) :
    newArray heap (n : Int) = .ok ((List.range n).map heap) := by
  unfold newArray
  rw [if_neg (by omega), Int.toNat_natCast]

/-- Without overflow the remap succeeds, puts source row `r` into destination
row `h - 1 - r`, and its iterations are the ones logged. -/
theorem remap_spec (heap : Nat → Rgba) (width height : UShort) (src : List Half)
    (hsrc : width.val * height.val * 3 ≤ src.length)
    (hfit : src.length ≤ 2147483648) :
    ∃ d, remap heap width height src = .ok d ∧
      d.pixels.length = width.val * height.val ∧
      (∀ r c, r < height.val → c < width.val →
        d.pixels[(height.val - 1 - r) * width.val + c]? =
          some (sourcePixel src width.val r c)) ∧
      d.log.length = height.val * width.val ∧
      (∀ r c, r < height.val → c < width.val →
        d.log[(height.val - 1 - r) * width.val + c]? =
          some ((((height.val - 1 - r) * width.val + c : Nat) : Int),
            (((r * width.val + c) * 3 : Nat) : Int))) := by
  obtain ⟨w, hwv⟩ : ∃ w : Nat, w = width.val := ⟨_, rfl⟩
  obtain ⟨h, hhv⟩ : ∃ h : Nat, h = height.val := ⟨_, rfl⟩
  have hw : w < 65536 := by rw [hwv]; exact width.isLt
  have hh : h < 65536 := by rw [hhv]; exact height.isLt
  rw [← hwv, ← hhv] at hsrc ⊢
  obtain ⟨n, hn⟩ : ∃ n : Nat, n = w * h := ⟨_, rfl⟩
  have hn2 : h * w = n := by rw [hn, Nat.mul_comm]
  rw [← hn] at hsrc
  have e1 : (w : Int) * (h : Int) = (n : Int) := by rw [hn]; push_cast; rfl
  have e2 : (h : Int) * (w : Int) = (n : Int) := by rw [← hn2]; push_cast; rfl
  obtain ⟨d, hrun, hl, _, hrow, hll, _, hlrow⟩ :=
    outerLoop_spec src w h (by omega) hfit (by omega) (by omega) h
      ⟨(List.range n).map heap, []⟩ (Nat.le_refl h)
      (by simp only [List.length_map, List.length_range]; exact hn)
      (by simp only [List.length_map, List.length_range]; omega)
      (by simp only [Nat.sub_self, Nat.zero_mul, List.length_nil]) (h + 1) (by omega)
  simp only [Nat.sub_self, Nat.zero_mul, Nat.cast_zero] at hrun
  refine ⟨d, ?_, ?_, hrow, hll, hlrow⟩
  · rw [remap_def, ← hwv, ← hhv, e1, e2, wrapInt_natCast n (by omega), newArray_natCast,
      andThen_ok, andThen_ok, wrapInt_natCast_pred h (by omega)]
    exact hrun
  · rw [hl]; simp only [List.length_map, List.length_range]; exact hn

/-! ## Reading the header -/

theorem fread_eq (t : Target) (size count : Nat) (f : FILE) :
    fread t size count f =
      ((f.content.drop f.pos).take
          (min ((size * count) % 2 ^ t.sizeBits) (f.content.length - f.pos)),
        if (size * count) % 2 ^ t.sizeBits = 0 then 0
        else if min ((size * count) % 2 ^ t.sizeBits) (f.content.length - f.pos) =
            (size * count) % 2 ^ t.sizeBits then count
          else min ((size * count) % 2 ^ t.sizeBits) (f.content.length - f.pos) / size,
        { f with
          pos := f.pos + min ((size * count) % 2 ^ t.sizeBits) (f.content.length - f.pos) }) :=
  rfl

theorem two_pow_sizeBits_ge (t : Target) : 4294967296 ≤ 2 ^ t.sizeBits := by
  cases t
  · show 4294967296 ≤ 2 ^ 32; norm_num
  · show 4294967296 ≤ 2 ^ 64; norm_num

theorem mod_sizeBits_small (t : Target) (n : Nat) (h : n < 4294967296) :
    n % 2 ^ t.sizeBits = n :=
  Nat.mod_eq_of_lt (Nat.lt_of_lt_of_le h (two_pow_sizeBits_ge t))

/-- The stream and the data of a read of `size * count` bytes, a number below
2^32, whatever the returned count. -/
theorem fread_small (t : Target) (size count : Nat) (f : FILE) (h : size * count < 4294967296) :
    (fread t size count f).1 =
        (f.content.drop f.pos).take (min (size * count) (f.content.length - f.pos)) ∧
      (fread t size count f).2.2 =
        { f with pos := f.pos + min (size * count) (f.content.length - f.pos) } := by
  rw [fread_eq, mod_sizeBits_small t _ h]
  exact ⟨rfl, rfl⟩

theorem take_one_drop {α : Type} (l : List α) (n : Nat) (a : α) (ha : l[n]? = some a) :
    (l.drop n).take 1 = [a] := by
  induction l generalizing n with
  | nil => simp at ha
  | cons x xs ih =>
    cases n with
    | zero => simp at ha; simp [ha]
    | succ n => simp at ha; simpa using ih n ha

theorem take_two_drop {α : Type} (l : List α) (n : Nat) (a b : α) (ha : l[n]? = some a)
    (hb : l[n + 1]? = some b) : (l.drop n).take 2 = [a, b] := by
  induction l generalizing n with
  | nil => simp at ha
  | cons x xs ih =>
    cases n with
    | zero =>
      cases xs with
      | nil => simp at hb
      | cons y ys => simp at ha hb; simp [ha, hb]
    | succ n => simp at ha hb; simpa using ih n ha hb

theorem length_gt_of_getElem? {α : Type} (l : List α) (n : Nat) (a : α) (ha : l[n]? = some a) :
    n < l.length := by
  rcases List.getElem?_eq_some.mp ha with ⟨h, _⟩
  exact h

theorem toChar_eq_48 (b : Byte) : toChar b = 48 ↔ b = 48 := by
  unfold toChar
  constructor
  · intro h
    split at h
    · apply Fin.ext; show b.val = 48; omega
    · have := b.isLt; omega
  · intro h; subst h; rfl

theorem readHeader_def (t : Target) (bd0 : Byte) (w0 h0 : UShort) (f : FILE) :
    readHeader t bd0 w0 h0 f =
      ⟨u16Of (fread t 2 1 (fread t 1 12 f).2.2).1 w0,
        u16Of (fread t 2 1 (fread t 2 1 (fread t 1 12 f).2.2).2.2).1 h0,
        toChar (u8Of (fread t 1 1 (fread t 2 1 (fread t 2 1 (fread t 1 12 f).2.2).2.2).2.2).1 bd0),
        (fread t 1 1
          (fread t 1 1 (fread t 2 1 (fread t 2 1 (fread t 1 12 f).2.2).2.2).2.2).2.2).2.2⟩ := rfl

/-- The header reads never close the stream nor change its content, and they
stop at offset 18 at the latest. -/
theorem readHeader_stream (t : Target) (bd0 : Byte) (w0 h0 : UShort) (bytes : List Byte) :
    (readHeader t bd0 w0 h0 ⟨bytes, 0, true⟩).infile.content = bytes ∧
      (readHeader t bd0 w0 h0 ⟨bytes, 0, true⟩).infile.isOpen = true ∧
      (readHeader t bd0 w0 h0 ⟨bytes, 0, true⟩).infile.pos ≤ 18 := by
  rw [readHeader_def]
  refine ⟨rfl, rfl, ?_⟩
  show (fread t 1 1 _).2.2.pos ≤ 18
  rw [(fread_small t 1 1 _ (by decide)).2]
  rw [(fread_small t 1 1 _ (by decide)).2]
  rw [(fread_small t 2 1 _ (by decide)).2]
  rw [(fread_small t 2 1 _ (by decide)).2]
  rw [(fread_small t 1 12 _ (by decide)).2]
  show 0 + min (1 * 12) _ + min (2 * 1) _ + min (2 * 1) _ + min (1 * 1) _ + min (1 * 1) _ ≤ 18
  omega

/-- The header of a stream whose first 17 bytes exist. -/
theorem readHeader_eq (t : Target) (bd0 : Byte) (w0 h0 : UShort) (bytes : List Byte)
    (b12 b13 b14 b15 b16 : Byte)
    (h12 : bytes[12]? = some b12) (h13 : bytes[13]? = some b13)
    (h14 : bytes[14]? = some b14) (h15 : bytes[15]? = some b15)
    (h16 : bytes[16]? = some b16) :
    readHeader t bd0 w0 h0 ⟨bytes, 0, true⟩ =
      ⟨mkU16 b12 b13, mkU16 b14 b15, toChar b16,
        ⟨bytes, 17 + min 1 (bytes.length - 17), true⟩⟩ := by
  have hl := length_gt_of_getElem? bytes 16 b16 h16
  have f1 : fread t 1 12 ⟨bytes, 0, true⟩ = (bytes.take 12, 12, ⟨bytes, 12, true⟩) := by
    rw [fread_eq, mod_sizeBits_small t (1 * 12) (by decide)]
    have e : min (1 * 12) (bytes.length - 0) = 12 := by omega
    simp only [e, List.drop_zero, Nat.zero_add]
    rfl
  have f2 : fread t 2 1 ⟨bytes, 12, true⟩ = ([b12, b13], 1, ⟨bytes, 14, true⟩) := by
    rw [fread_eq, mod_sizeBits_small t (2 * 1) (by decide)]
    have e : min (2 * 1) (bytes.length - 12) = 2 := by omega
    simp only [e, take_two_drop bytes 12 b12 b13 h12 h13]
    rfl
  have f3 : fread t 2 1 ⟨bytes, 14, true⟩ = ([b14, b15], 1, ⟨bytes, 16, true⟩) := by
    rw [fread_eq, mod_sizeBits_small t (2 * 1) (by decide)]
    have e : min (2 * 1) (bytes.length - 14) = 2 := by omega
    simp only [e, take_two_drop bytes 14 b14 b15 h14 h15]
    rfl
  have f4 : fread t 1 1 ⟨bytes, 16, true⟩ = ([b16], 1, ⟨bytes, 17, true⟩) := by
    rw [fread_eq, mod_sizeBits_small t (1 * 1) (by decide)]
    have e : min (1 * 1) (bytes.length - 16) = 1 := by omega
    simp only [e, take_one_drop bytes 16 b16 h16]
    rfl
  rw [readHeader_def, f1, f2, f3, f4]
  show HeaderRead.mk _ _ _ (fread t 1 1 ⟨bytes, 17, true⟩).2.2 = _
  rw [(fread_small t 1 1 _ (by decide)).2]
  rfl

theorem loadTGAFile_some (t : Target) (files : String → Option (List Byte))
    (mallocOk : Nat → Bool) (heap : Nat → Half) (bd0 : Byte) (name : String) (w0 h0 : UShort)
    (bytes : List Byte) (hfile : files name = some bytes) :
    loadTGAFile t files mallocOk heap bd0 (some name) w0 h0 =
      if (readHeader t bd0 w0 h0 ⟨bytes, 0, true⟩).bitdepth ≠ 48 then
        ⟨(readHeader t bd0 w0 h0 ⟨bytes, 0, true⟩).width,
          (readHeader t bd0 w0 h0 ⟨bytes, 0, true⟩).height,
          some (readHeader t bd0 w0 h0 ⟨bytes, 0, true⟩).infile, .ok none⟩
      else readPayload t mallocOk heap (readHeader t bd0 w0 h0 ⟨bytes, 0, true⟩).width
        (readHeader t bd0 w0 h0 ⟨bytes, 0, true⟩).height
        (readHeader t bd0 w0 h0 ⟨bytes, 0, true⟩).infile := by
  show (match files name with
    | none => (⟨w0, h0, none, .ok none⟩ : Loaded)
    | some bytes =>
      if (readHeader t bd0 w0 h0 ⟨bytes, 0, true⟩).bitdepth ≠ 48 then
        ⟨(readHeader t bd0 w0 h0 ⟨bytes, 0, true⟩).width,
          (readHeader t bd0 w0 h0 ⟨bytes, 0, true⟩).height,
          some (readHeader t bd0 w0 h0 ⟨bytes, 0, true⟩).infile, .ok none⟩
      else readPayload t mallocOk heap (readHeader t bd0 w0 h0 ⟨bytes, 0, true⟩).width
        (readHeader t bd0 w0 h0 ⟨bytes, 0, true⟩).height
        (readHeader t bd0 w0 h0 ⟨bytes, 0, true⟩).infile) = _
  rw [hfile]

/-- What `loadTGAFile` does after the header of a stream whose first 17 bytes
exist: the rejection, or lines 55-58. -/
theorem loadTGAFile_header (t : Target) (files : String → Option (List Byte))
    (mallocOk : Nat → Bool) (heap : Nat → Half)
    (bd0 : Byte) (name : String) (w0 h0 : UShort) (bytes : List Byte)
    (b12 b13 b14 b15 b16 : Byte)
    (hfile : files name = some bytes)
    (h12 : bytes[12]? = some b12) (h13 : bytes[13]? = some b13)
    (h14 : bytes[14]? = some b14) (h15 : bytes[15]? = some b15)
    (h16 : bytes[16]? = some b16) :
    loadTGAFile t files mallocOk heap bd0 (some name) w0 h0 =
      if b16 ≠ 48 then
        ⟨mkU16 b12 b13, mkU16 b14 b15, some ⟨bytes, 17 + min 1 (bytes.length - 17), true⟩,
          .ok none⟩
      else
        readPayload t mallocOk heap (mkU16 b12 b13) (mkU16 b14 b15)
          ⟨bytes, 17 + min 1 (bytes.length - 17), true⟩ := by
  rw [loadTGAFile_some t files mallocOk heap bd0 name w0 h0 bytes hfile,
    readHeader_eq t bd0 w0 h0 bytes b12 b13 b14 b15 b16 h12 h13 h14 h15 h16]
  by_cases hb : b16 = 48
  · rw [if_neg (fun h => h ((toChar_eq_48 b16).mpr hb)), if_neg (fun h => h hb)]
  · rw [if_pos (fun h => hb ((toChar_eq_48 b16).mp h)), if_pos hb]

/-! ## Reading the payload -/

theorem storeBytes_length (data : List Byte) (buf : List Half) :
    (storeBytes data buf).length = buf.length := by
  induction buf generalizing data with
  | nil =>
    match data with
    | [] => rfl
    | [_] => rfl
    | _ :: _ :: _ => rfl
  | cons old buf ih =>
    match data with
    | [] => rfl
    | [_] => rfl
    | lo :: hi :: rest =>
      show (mkU16 lo hi :: storeBytes rest buf).length = (old :: buf).length
      rw [List.length_cons, List.length_cons, ih]

theorem storeBytes_getElem? (data : List Byte) (buf : List Half) (i : Nat) (a b : Byte)
    (ha : data[2 * i]? = some a) (hb : data[2 * i + 1]? = some b) (hi : i < buf.length) :
    (storeBytes data buf)[i]? = some (mkU16 a b) := by
  induction buf generalizing data i with
  | nil => simp at hi
  | cons old buf ih =>
    match data with
    | [] => simp at ha
    | [_] => simp at hb
    | lo :: hi' :: rest =>
      show (mkU16 lo hi' :: storeBytes rest buf)[i]? = some (mkU16 a b)
      cases i with
      | zero =>
        simp only [Nat.mul_zero, List.getElem?_cons_zero, Option.some.injEq, Nat.zero_add,
          List.getElem?_cons_succ] at ha hb
        rw [List.getElem?_cons_zero, ha, hb]
      | succ i =>
        have e1 : 2 * (i + 1) = 2 * i + 1 + 1 := by omega
        have e2 : 2 * (i + 1) + 1 = 2 * i + 1 + 1 + 1 := by omega
        rw [e1, List.getElem?_cons_succ, List.getElem?_cons_succ] at ha
        rw [e2, List.getElem?_cons_succ, List.getElem?_cons_succ] at hb
        rw [List.getElem?_cons_succ]
        exact ih rest i ha hb (by simpa using hi)

/-- Elements the stored bytes do not reach keep their content. -/
theorem storeBytes_getElem?_rest (data : List Byte) (buf : List Half) (i : Nat)
    (hi : data.length ≤ 2 * i) : (storeBytes data buf)[i]? = buf[i]? := by
  induction buf generalizing data i with
  | nil =>
    match data with
    | [] => rfl
    | [_] => rfl
    | _ :: _ :: _ => rfl
  | cons old buf ih =>
    match data with
    | [] => rfl
    | [_] =>
      cases i with
      | zero => simp at hi
      | succ i => rfl
    | lo :: hi' :: rest =>
      show (mkU16 lo hi' :: storeBytes rest buf)[i]? = (old :: buf)[i]?
      cases i with
      | zero => simp at hi
      | succ i =>
        rw [List.getElem?_cons_succ, List.getElem?_cons_succ]
        exact ih rest i (by simp only [List.length_cons] at hi; omega)

theorem wrapInt_range (x : Int) : -2147483648 ≤ wrapInt x ∧ wrapInt x < 2147483648 := by
  unfold wrapInt; omega

theorem sampleCount_range (w h : UShort) :
    -2147483648 ≤ sampleCount w h ∧ sampleCount w h < 2147483648 :=
  wrapInt_range _

theorem toSizeT_natCast (t : Target) (n : Nat) (h : n < 4294967296) : toSizeT t (n : Int) = n := by
  unfold toSizeT
  cases t
  · show ((n : Int) % ((2 ^ 32 : Nat) : Int)).toNat = n
    norm_num
    omega
  · show ((n : Int) % ((2 ^ 64 : Nat) : Int)).toNat = n
    norm_num
    omega

/-- The request of line 55 is a whole number of samples. -/
theorem allocBytes_even (t : Target) (w h : UShort) :
    sizeofHalf * (allocBytes t w h / sizeofHalf) = allocBytes t w h := by
  unfold allocBytes sizeofHalf
  generalize toSizeT t (sampleCount w h) = x
  cases t
  · show 2 * (x * 2 % 2 ^ 32 / 2) = x * 2 % 2 ^ 32
    norm_num
    omega
  · show 2 * (x * 2 % 2 ^ 64 / 2) = x * 2 % 2 ^ 64
    norm_num
    omega

theorem allocBytes_eq (t : Target) (w h : UShort) (n : Nat) (hc : sampleCount w h = (n : Int)) :
    allocBytes t w h = n * 2 := by
  have hr := sampleCount_range w h
  have hn : n < 2147483648 := by
    have : sampleCount w h < 2147483648 := hr.2
    omega
  have hp := two_pow_sizeBits_ge t
  unfold allocBytes
  rw [hc, toSizeT_natCast t n (by omega)]
  show n * 2 % 2 ^ t.sizeBits = n * 2
  exact Nat.mod_eq_of_lt (by omega)

theorem sampleCount_eq (w h : UShort) (hfit : w.val * h.val * 3 < 2147483648) :
    sampleCount w h = ((w.val * h.val * 3 : Nat) : Int) := by
  obtain ⟨n, hn⟩ : ∃ n : Nat, n = w.val * h.val := ⟨_, rfl⟩
  have e1 : (w.val : Int) * (h.val : Int) = (n : Int) := by rw [hn]; push_cast; rfl
  rw [← hn] at hfit ⊢
  unfold sampleCount
  rw [e1, wrapInt_natCast n (by omega), wrapInt_natCast_mul_three n hfit]

/-- A buffer of the size line 55 requests has `width*height*3` samples only if
that number fits an `int`. -/
theorem alloc_fits (t : Target) (w h : UShort)
    (hbuf : allocBytes t w h / sizeofHalf = w.val * h.val * 3) :
    w.val * h.val * 3 < 2147483648 := by
  have hr := sampleCount_range w h
  have hwh : w.val * h.val ≤ 65535 * 65535 :=
    Nat.mul_le_mul (Nat.le_of_lt_succ w.isLt) (Nat.le_of_lt_succ h.isLt)
  revert hbuf
  unfold allocBytes toSizeT sizeofHalf
  generalize sampleCount w h = sc at hr ⊢
  generalize w.val * h.val = p at hwh ⊢
  cases t
  · show (sc % ((2 ^ 32 : Nat) : Int)).toNat * 2 % 2 ^ 32 / 2 = p * 3 → p * 3 < 2147483648
    norm_num
    omega
  · show (sc % ((2 ^ 64 : Nat) : Int)).toNat * 2 % 2 ^ 64 / 2 = p * 3 → p * 3 < 2147483648
    obtain ⟨x, hx⟩ : ∃ x : Nat, (x : Int) = sc % ((2 ^ 64 : Nat) : Int) :=
      ⟨(sc % ((2 ^ 64 : Nat) : Int)).toNat, Int.toNat_of_nonneg (Int.emod_nonneg _ (by norm_num))⟩
    rw [← hx, Int.toNat_ofNat]
    intro hbuf
    by_cases hneg : sc < 0
    · exfalso
      have hx2 : (x : Int) = sc + 18446744073709551616 := by
        rw [hx]; norm_num; omega
      have hx3 : 18446744071562067968 ≤ x := by omega
      have hx4 : x < 18446744073709551616 := by omega
      have e : x * 2 % 2 ^ 64 = x * 2 - 18446744073709551616 := by norm_num; omega
      rw [e] at hbuf
      omega
    · have hx2 : (x : Int) = sc := by
        rw [hx]; norm_num; omega
      have hx3 : x < 2147483648 := by omega
      have e : x * 2 % 2 ^ 64 = x * 2 := by norm_num; omega
      rw [e] at hbuf
      omega

theorem readPayload_def (t : Target) (mallocOk : Nat → Bool) (heap : Nat → Half)
    (w h : UShort) (f : FILE) :
    readPayload t mallocOk heap w h f =
      ⟨w, h, some (fread t sizeofHalf (toSizeT t (sampleCount w h)) f).2.2,
        storeData (fread t sizeofHalf (toSizeT t (sampleCount w h)) f).1
          (mallocHalves mallocOk heap (allocBytes t w h))⟩ := rfl

theorem readPayload_ret (t : Target) (mallocOk : Nat → Bool) (heap : Nat → Half)
    (w h : UShort) (f : FILE) :
    (readPayload t mallocOk heap w h f).ret =
      storeData (fread t sizeofHalf (toSizeT t (sampleCount w h)) f).1
        (mallocHalves mallocOk heap (allocBytes t w h)) := rfl

/-- A read of `count` samples into a fresh buffer of `ab` bytes, where `ab` is
the byte count the library forms for the read. -/
theorem payload_read (t : Target) (mallocOk : Nat → Bool) (heap : Nat → Half)
    (count ab : Nat) (f : FILE)
    (hab : (count * sizeofHalf) % 2 ^ t.sizeBits = ab)
    (hev : sizeofHalf * (ab / sizeofHalf) = ab)
    (hok : mallocOk ab = true) :
    ∃ img,
      (fread t sizeofHalf count f).2.2 =
        ⟨f.content, f.pos + min ab (f.content.length - f.pos), f.isOpen⟩ ∧
      storeData (fread t sizeofHalf count f).1 (mallocHalves mallocOk heap ab) =
        .ok (some img) ∧
      img.length = ab / sizeofHalf ∧
      (∀ i a b, i < img.length → f.content[f.pos + 2 * i]? = some a →
        f.content[f.pos + 2 * i + 1]? = some b → img[i]? = some (mkU16 a b)) ∧
      ∀ i, (f.content.length - f.pos) ≤ 2 * i →
        img[i]? = (if i < ab / sizeofHalf then some (heap i) else none) := by
  have e : sizeofHalf * count % 2 ^ t.sizeBits = ab := by rw [Nat.mul_comm]; exact hab
  obtain ⟨m, hm⟩ : ∃ m : Nat, m = ab / sizeofHalf := ⟨_, rfl⟩
  rw [← hm] at hev ⊢
  unfold sizeofHalf at hev
  have hbl : ((List.range m).map heap).length = m := by
    rw [List.length_map, List.length_range]
  have hdl : ((f.content.drop f.pos).take (min ab (f.content.length - f.pos))).length ≤
      sizeofHalf * ((List.range m).map heap).length := by
    rw [List.length_take, List.length_drop, hbl]
    unfold sizeofHalf
    omega
  have hd : (fread t sizeofHalf count f).1 =
      (f.content.drop f.pos).take (min ab (f.content.length - f.pos)) := by
    rw [fread_eq, e]
  have hs : (fread t sizeofHalf count f).2.2 =
      ⟨f.content, f.pos + min ab (f.content.length - f.pos), f.isOpen⟩ := by
    rw [fread_eq, e]
  refine ⟨storeBytes ((f.content.drop f.pos).take (min ab (f.content.length - f.pos)))
    ((List.range m).map heap), hs, ?_, ?_, ?_, ?_⟩
  · rw [hd]
    unfold mallocHalves storeData
    rw [if_pos hok, ← hm]
    simp only [hdl, if_true]
  · rw [storeBytes_length, hbl]
  · intro i a b hi ha hb
    rw [storeBytes_length, hbl] at hi
    have hl := length_gt_of_getElem? _ _ _ hb
    apply storeBytes_getElem?
    · rw [List.getElem?_take_of_lt (by omega), List.getElem?_drop]; exact ha
    · rw [List.getElem?_take_of_lt (by omega), List.getElem?_drop]; exact hb
    · rw [hbl]; exact hi
  · intro i hi
    rw [storeBytes_getElem?_rest _ _ _ (by
      rw [List.length_take, List.length_drop]; omega)]
    by_cases him : i < m
    · rw [if_pos him, List.getElem?_map, List.getElem?_range him]; rfl
    · rw [if_neg him, List.getElem?_eq_none (by rw [hbl]; omega)]

/-- Lines 55-58 when `malloc` grants the request: an image is returned, it has
room for the samples requested, its first elements are the samples of the
stream, and the elements the stream does not reach keep the content of the
heap. -/
theorem readPayload_ok (t : Target) (mallocOk : Nat → Bool) (heap : Nat → Half)
    (w h : UShort) (f : FILE) (hok : mallocOk (allocBytes t w h) = true) :
    ∃ img, readPayload t mallocOk heap w h f =
        ⟨w, h, some ⟨f.content, f.pos + min (allocBytes t w h) (f.content.length - f.pos),
          f.isOpen⟩, .ok (some img)⟩ ∧
      img.length = allocBytes t w h / sizeofHalf ∧
      (∀ i a b, i < img.length → f.content[f.pos + 2 * i]? = some a →
        f.content[f.pos + 2 * i + 1]? = some b → img[i]? = some (mkU16 a b)) ∧
      ∀ i, (f.content.length - f.pos) ≤ 2 * i →
        img[i]? = (if i < allocBytes t w h / sizeofHalf then some (heap i) else none) := by
  obtain ⟨img, hs, hst, hlen, hsam, hrest⟩ := payload_read t mallocOk heap
    (toSizeT t (sampleCount w h)) (allocBytes t w h) f rfl (allocBytes_even t w h) hok
  refine ⟨img, ?_, hlen, hsam, hrest⟩
  rw [readPayload_def, hs, hst]

theorem mallocHalves_none (mallocOk : Nat → Bool) (heap : Nat → Half) (bytes : Nat)
    (hno : mallocOk bytes = false) : mallocHalves mallocOk heap bytes = none := by
  unfold mallocHalves
  rw [hno]
  rfl

theorem storeData_none (data : List Byte) :
    storeData data none = .ok none ∨ storeData data none = .error .undefined := by
  cases data with
  | nil => exact Or.inl rfl
  | cons _ _ => exact Or.inr rfl

/-- Lines 55-58 when `malloc` returns NULL: the function returns NULL if the
stream has no further byte, and otherwise stores through the null pointer. -/
theorem readPayload_null (t : Target) (mallocOk : Nat → Bool) (heap : Nat → Half)
    (w h : UShort) (f : FILE) (hno : mallocOk (allocBytes t w h) = false) :
    (readPayload t mallocOk heap w h f).ret = .ok none ∨
      (readPayload t mallocOk heap w h f).ret = .error .undefined := by
  rw [readPayload_ret, mallocHalves_none mallocOk heap (allocBytes t w h) hno]
  exact storeData_none (fread t sizeofHalf (toSizeT t (sampleCount w h)) f).1

/-- Every image `loadTGAFile` returns has the size line 55 requested for the
width and height it reports. -/
theorem loadTGAFile_buffer_length (t : Target) (files : String → Option (List Byte))
    (mallocOk : Nat → Bool) (heap : Nat → Half) (bd0 : Byte) (filename : Option String)
    (w0 h0 : UShort) (img : List Half)
    (hret : (loadTGAFile t files mallocOk heap bd0 filename w0 h0).ret = .ok (some img)) :
    img.length =
      allocBytes t (loadTGAFile t files mallocOk heap bd0 filename w0 h0).width
        (loadTGAFile t files mallocOk heap bd0 filename w0 h0).height / sizeofHalf := by
  cases filename with
  | none => cases hret
  | some name =>
    cases hfile : files name with
    | none =>
      have e : loadTGAFile t files mallocOk heap bd0 (some name) w0 h0 =
          ⟨w0, h0, none, .ok none⟩ := by
        show (match files name with
          | none => (⟨w0, h0, none, .ok none⟩ : Loaded)
          | some bytes => _) = _
        rw [hfile]
      rw [e] at hret
      cases hret
    | some bytes =>
      rw [loadTGAFile_some t files mallocOk heap bd0 name w0 h0 bytes hfile] at hret ⊢
      by_cases hb : (readHeader t bd0 w0 h0 ⟨bytes, 0, true⟩).bitdepth ≠ 48
      · rw [if_pos hb] at hret
        cases hret
      · rw [if_neg hb] at hret ⊢
        generalize (readHeader t bd0 w0 h0 ⟨bytes, 0, true⟩).width = w at hret ⊢
        generalize (readHeader t bd0 w0 h0 ⟨bytes, 0, true⟩).height = h at hret ⊢
        generalize (readHeader t bd0 w0 h0 ⟨bytes, 0, true⟩).infile = f at hret ⊢
        cases hok : mallocOk (allocBytes t w h) with
        | false =>
          rcases readPayload_null t mallocOk heap w h f hok with e | e <;>
          · rw [e] at hret
            cases hret
        | true =>
          obtain ⟨img', hrun, hlen, _⟩ := readPayload_ok t mallocOk heap w h f hok
          rw [hrun] at hret ⊢
          simp only [Except.ok.injEq, Option.some.injEq] at hret
          rw [← hret]
          exact hlen

/-- The accepting path of `loadTGAFile` when the `int` value of `width*height*3`
is a natural number `n` and `malloc` grants the `2n` bytes: the buffer has room
for `n` samples and starts with the samples of the stream. -/
theorem loadTGAFile_accept (t : Target) (files : String → Option (List Byte))
    (mallocOk : Nat → Bool) (heap : Nat → Half)
    (bd0 : Byte) (name : String) (w0 h0 : UShort) (bytes : List Byte)
    (b12 b13 b14 b15 : Byte) (n : Nat)
    (hfile : files name = some bytes)
    (h12 : bytes[12]? = some b12) (h13 : bytes[13]? = some b13)
    (h14 : bytes[14]? = some b14) (h15 : bytes[15]? = some b15)
    (h16 : bytes[16]? = some 48)
    (hc : sampleCount (mkU16 b12 b13) (mkU16 b14 b15) = (n : Int))
    (hok : mallocOk (n * 2) = true) :
    ∃ img pos, loadTGAFile t files mallocOk heap bd0 (some name) w0 h0 =
        ⟨mkU16 b12 b13, mkU16 b14 b15, some ⟨bytes, pos, true⟩, .ok (some img)⟩ ∧
      img.length = n ∧
      ∀ i a b, i < n → bytes[17 + min 1 (bytes.length - 17) + 2 * i]? = some a →
        bytes[17 + min 1 (bytes.length - 17) + 2 * i + 1]? = some b →
        img[i]? = some (mkU16 a b) := by
  have hal := allocBytes_eq t _ _ n hc
  obtain ⟨img, hrun, hlen, hsamples, _⟩ := readPayload_ok t mallocOk heap (mkU16 b12 b13)
    (mkU16 b14 b15) ⟨bytes, 17 + min 1 (bytes.length - 17), true⟩ (by rw [hal]; exact hok)
  have hn : img.length = n := by
    rw [hlen, hal]; unfold sizeofHalf; omega
  refine ⟨img, 17 + min 1 (bytes.length - 17) +
    min (allocBytes t (mkU16 b12 b13) (mkU16 b14 b15))
      (bytes.length - (17 + min 1 (bytes.length - 17))), ?_, hn, ?_⟩
  · rw [loadTGAFile_header t files mallocOk heap bd0 name w0 h0 bytes b12 b13 b14 b15 48 hfile
      h12 h13 h14 h15 h16, if_neg (show ¬ (48 : Byte) ≠ 48 from fun h => h rfl), hrun]
  · intro i a b hi ha hb
    exact hsamples i a b (by rw [hn]; exact hi) ha hb

/-! ## The memory image of the pixel buffer -/

theorem mkU16_halfBytes (v : Half) :
    mkU16 ⟨v.val % 256, Nat.mod_lt _ (by decide)⟩ ⟨v.val / 256, by omega⟩ = v := by
  apply Fin.ext
  show v.val % 256 + 256 * (v.val / 256) = v.val
  omega

theorem rgbaBytes_length (p : Rgba) : (rgbaBytes p).length = 8 := rfl

theorem bufferBytes_drop (pixels : List Rgba) (i : Nat) (p : Rgba) (hp : pixels[i]? = some p) :
    ∃ rest, (bufferBytes pixels).drop (8 * i) = rgbaBytes p ++ rest := by
  induction pixels generalizing i with
  | nil => simp at hp
  | cons q qs ih =>
    cases i with
    | zero =>
      simp only [List.getElem?_cons_zero, Option.some.injEq] at hp
      subst hp
      exact ⟨bufferBytes qs, rfl⟩
    | succ i =>
      rw [List.getElem?_cons_succ] at hp
      obtain ⟨rest, hrest⟩ := ih i hp
      refine ⟨rest, ?_⟩
      have e : 8 * (i + 1) = (rgbaBytes q).length + 8 * i := by rw [rgbaBytes_length]; omega
      show (rgbaBytes q ++ bufferBytes qs).drop (8 * (i + 1)) = _
      rw [e, List.drop_append]
      exact hrest

theorem loadHalf_eq_of_drop (mem rest : List Byte) (off : Nat) (lo hi : Byte)
    (h : mem.drop off = lo :: hi :: rest) : loadHalf mem off = some (mkU16 lo hi) := by
  have h0 : mem[off]? = some lo := by
    have := List.getElem?_drop mem off 0
    rw [h] at this
    simpa using this.symm
  have h1 : mem[off + 1]? = some hi := by
    have := List.getElem?_drop mem off 1
    rw [h] at this
    simpa using this.symm
  unfold loadHalf
  rw [h0, h1]

theorem drop_add_of_drop {α : Type} (l pre rest : List α) (n : Nat) (h : l.drop n = pre ++ rest) :
    l.drop (n + pre.length) = rest := by
  rw [← List.drop_drop, h, List.drop_left]

/-- The three colour fields of record `i` as the encoder addresses them. -/
theorem loadHalf_fields (pixels : List Rgba) (i : Nat) (p : Rgba) (hp : pixels[i]? = some p) :
    loadHalf (bufferBytes pixels) (8 * i) = some p.r ∧
    loadHalf (bufferBytes pixels) (8 * i + 2) = some p.g ∧
    loadHalf (bufferBytes pixels) (8 * i + 4) = some p.b ∧
    loadHalf (bufferBytes pixels) (8 * i + 6) = some p.a := by
  obtain ⟨rest, hrest⟩ := bufferBytes_drop pixels i p hp
  have hR : (bufferBytes pixels).drop (8 * i) =
      halfBytes p.r ++ (halfBytes p.g ++ halfBytes p.b ++ halfBytes p.a ++ rest) := by
    rw [hrest]; simp [rgbaBytes]
  have hG : (bufferBytes pixels).drop (8 * i + 2) =
      halfBytes p.g ++ (halfBytes p.b ++ halfBytes p.a ++ rest) := by
    have := drop_add_of_drop _ _ _ _ hR
    simpa [halfBytes] using this
  have hB : (bufferBytes pixels).drop (8 * i + 4) =
      halfBytes p.b ++ (halfBytes p.a ++ rest) := by
    have := drop_add_of_drop _ _ _ _ hG
    simpa [halfBytes] using this
  have hA : (bufferBytes pixels).drop (8 * i + 6) = halfBytes p.a ++ rest := by
    have := drop_add_of_drop _ _ _ _ hB
    simpa [halfBytes] using this
  refine ⟨?_, ?_, ?_, ?_⟩
  · rw [loadHalf_eq_of_drop _ _ _ _ _ hR, mkU16_halfBytes]
  · rw [loadHalf_eq_of_drop _ _ _ _ _ hG, mkU16_halfBytes]
  · rw [loadHalf_eq_of_drop _ _ _ _ _ hB, mkU16_halfBytes]
  · rw [loadHalf_eq_of_drop _ _ _ _ _ hA, mkU16_halfBytes]

theorem bufferBytes_length (pixels : List Rgba) : (bufferBytes pixels).length = 8 * pixels.length := by
  induction pixels with
  | nil => rfl
  | cons p ps ih =>
    show (rgbaBytes p ++ bufferBytes ps).length = _
    rw [List.length_append, ih, rgbaBytes_length, List.length_cons]; omega

/-! ## The bindings -/

theorem buildFrameBuffer_eq (t : Target) (width : Int) :
    buildFrameBuffer t width =
      [("R", ⟨.HALF, 0, 8, rowStride t width⟩), ("G", ⟨.HALF, 2, 8, rowStride t width⟩),
        ("B", ⟨.HALF, 4, 8, rowStride t width⟩)] := by
  simp [buildFrameBuffer, mapInsert, offsetR, offsetG, offsetB, sizeofRgba]

theorem buildHeader_eq (width height : Int) :
    buildHeader width height =
      ⟨width, height, [("R", ⟨.HALF⟩), ("G", ⟨.HALF⟩), ("B", ⟨.HALF⟩)]⟩ := by
  simp [buildHeader, mapInsert]

theorem rowStride_eq (t : Target) (w : Nat) (hw : 8 * w < 2 ^ t.sizeBits) :
    rowStride t (w : Int) = 8 * w := by
  have hp := two_pow_sizeBits_ge t
  unfold rowStride toSizeT sizeofRgba
  have e : ((w : Int) % ((2 ^ t.sizeBits : Nat) : Int)).toNat = w := by
    rw [← Int.natCast_mod, Int.toNat_natCast]
    exact Nat.mod_eq_of_lt (by omega)
  rw [e]
  exact Nat.mod_eq_of_lt hw

/-! ## Claims about the remap loop -/

theorem getElem?_eq_some_getD {α : Type} (l : List α) (k : Nat) (d : α) (h : k < l.length) :
    l[k]? = some (l.getD k d) := by
  rw [List.getElem?_eq_getElem h, List.getD_eq_getElem _ _ h]

theorem pixel_index_inj (w x y x' y' : Nat) (hx : x < w) (hx' : x' < w)
    (h : y * w + x = y' * w + x') : y = y' ∧ x = x' := by
  rcases Nat.lt_trichotomy y y' with hlt | heq | hgt
  · have := Nat.mul_le_mul_right w (show y + 1 ≤ y' by omega)
    have e : (y + 1) * w = y * w + w := by ring
    omega
  · subst heq
    exact ⟨rfl, by omega⟩
  · have := Nat.mul_le_mul_right w (show y' + 1 ≤ y by omega)
    have e : (y' + 1) * w = y' * w + w := by ring
    omega

theorem pixel_index_lt (w h x y : Nat) (hx : x < w) (hy : y < h) : y * w + x < w * h := by
  have := Nat.mul_le_mul_right w (show y + 1 ≤ h by omega)
  have e : (y + 1) * w = y * w + w := by ring
  have e2 : w * h = h * w := Nat.mul_comm w h
  omega

theorem flip_index_lt (w h r c : Nat) (hr : r < h) (hc : c < w) :
    (h - 1 - r) * w + c < w * h := by
  have h1 : (h - 1 - r + 1) * w ≤ h * w := Nat.mul_le_mul_right w (by omega)
  have h2 : (h - 1 - r + 1) * w = (h - 1 - r) * w + w := by ring
  have h3 : w * h = h * w := Nat.mul_comm w h
  omega

theorem remap_raises_of_negative (heap : Nat → Rgba) (width height : UShort) (src : List Half)
    (hneg : wrapInt ((width.val : Int) * (height.val : Int)) < 0) :
    remap heap width height src = .error .raised := by
  rw [remap_def]
  have e : newArray heap (wrapInt ((width.val : Int) * (height.val : Int))) = .error .raised := by
    unfold newArray
    rw [if_pos hneg]
  rw [e, andThen_error]

/-- The samples of a source pixel, read back from the record `sourcePixel`. -/
theorem sourcePixel_samples (src : List Half) (w h r c : Nat) (hsrc : src.length = w * h * 3)
    (hr : r < h) (hc : c < w) :
    src[(r * w + c) * 3]? = some (sourcePixel src w r c).r ∧
    src[(r * w + c) * 3 + 1]? = some (sourcePixel src w r c).g ∧
    src[(r * w + c) * 3 + 2]? = some (sourcePixel src w r c).b ∧
    (sourcePixel src w r c).a = halfOne := by
  have hlt := pixel_index_lt w h c r hc hr
  exact ⟨getElem?_eq_some_getD src _ 0 (by omega), getElem?_eq_some_getD src _ 0 (by omega),
    getElem?_eq_some_getD src _ 0 (by omega), rfl⟩

/-- The destination after the remap, row by row, when nothing overflows. -/
theorem remap_rows (heap : Nat → Rgba) (width height : UShort) (src : List Half)
    (hsrc : src.length = width.val * height.val * 3)
    (hfit : width.val * height.val * 3 < 2147483648) :
    ∃ d, remap heap width height src = .ok d ∧
      d.pixels.length = width.val * height.val ∧
      ∀ r c, r < height.val → c < width.val →
        d.pixels[r * width.val + c]? =
          some (sourcePixel src width.val (height.val - 1 - r) c) := by
  obtain ⟨d, hrun, hl, hrow, _, _⟩ :=
    remap_spec heap width height src (by omega) (by omega)
  refine ⟨d, hrun, hl, ?_⟩
  intro r c hr hc
  have hrr : height.val - 1 - (height.val - 1 - r) = r := by omega
  have hpix := hrow (height.val - 1 - r) c (by omega) hc
  rw [hrr] at hpix
  exact hpix

/-- C1: for every width `w`, height `h` and source buffer of `w*h*3` samples
that `main` can hold (the buffer is the allocation of line 55, so it has
`allocBytes / sizeof(half)` elements), the remap loop fills the destination so
that the pixel at index `r*w + c` holds the three samples of source row `h-1-r`,
column `c`, bit for bit, with alpha `1.0`, whatever the source content is. -/
theorem remap_flip (t : Target) (heap : Nat → Rgba) (width height : UShort) (src : List Half)
    (hbuf : src.length = allocBytes t width height / sizeofHalf)
    (hsrc : src.length = width.val * height.val * 3) :
    ∃ d, remap heap width height src = .ok d ∧
      d.pixels.length = width.val * height.val ∧
      ∀ r c, r < height.val → c < width.val →
        ∃ p, d.pixels[r * width.val + c]? = some p ∧
          src[((height.val - 1 - r) * width.val + c) * 3]? = some p.r ∧
          src[((height.val - 1 - r) * width.val + c) * 3 + 1]? = some p.g ∧
          src[((height.val - 1 - r) * width.val + c) * 3 + 2]? = some p.b ∧
          p.a = halfOne := by
  have hfit : width.val * height.val * 3 < 2147483648 :=
    alloc_fits t width height (by rw [← hbuf, hsrc])
  obtain ⟨d, hrun, hl, hrow⟩ := remap_rows heap width height src hsrc hfit
  refine ⟨d, hrun, hl, ?_⟩
  intro r c hr hc
  obtain ⟨h0, h1, h2, ha⟩ := sourcePixel_samples src width.val height.val
    (height.val - 1 - r) c hsrc (by omega) hc
  exact ⟨sourcePixel src width.val (height.val - 1 - r) c, hrow r c hr hc, h0, h1, h2, ha⟩

/-- Witness for C1: the 1×2 image of the specification, with rows
`[10, 11, 12]` and `[20, 21, 22]`; the destination is the second row followed
by the first, each with alpha `1.0`. -/
theorem remap_flip_witness :
    (([10, 11, 12, 20, 21, 22] : List Half).length = allocBytes .bits64 1 2 / sizeofHalf ∧
      ([10, 11, 12, 20, 21, 22] : List Half).length = (1 : UShort).val * (2 : UShort).val * 3) ∧
    (∃ d, remap zeroRgba 1 2 [10, 11, 12, 20, 21, 22] = .ok d ∧
      d.pixels.length = (1 : UShort).val * (2 : UShort).val ∧
      ∀ r c, r < (2 : UShort).val → c < (1 : UShort).val →
        ∃ p, d.pixels[r * (1 : UShort).val + c]? = some p ∧
          ([10, 11, 12, 20, 21, 22] : List Half)[(((2 : UShort).val - 1 - r) * (1 : UShort).val + c) * 3]?
            = some p.r ∧
          ([10, 11, 12, 20, 21, 22] : List Half)[(((2 : UShort).val - 1 - r) * (1 : UShort).val + c) * 3 + 1]?
            = some p.g ∧
          ([10, 11, 12, 20, 21, 22] : List Half)[(((2 : UShort).val - 1 - r) * (1 : UShort).val + c) * 3 + 2]?
            = some p.b ∧
          p.a = halfOne) ∧
    (remap zeroRgba 1 2 [10, 11, 12, 20, 21, 22]).map (fun d => d.pixels) =
      .ok [⟨20, 21, 22, halfOne⟩, ⟨10, 11, 12, halfOne⟩] :=
  ⟨⟨by decide, by decide⟩,
    remap_flip .bits64 zeroRgba 1 2 [10, 11, 12, 20, 21, 22] (by decide) (by decide), rfl⟩

/-! ## Claims about what the encoder reads -/

/-- The four ways a call of `saveEXRFile` with valid arguments can go. -/
theorem saveEXRFile_valid_cases (t : Target) (raises : EncOp → Bool) (path : String)
    (width height : Int) (img : List Rgba) (hw : 0 < width) (hh : 0 < height) :
    (raises (EncOp.outputFile path (buildHeader width height)) = true ∧
      saveEXRFile t raises (some path) width height (some img) =
        ⟨[EncOp.outputFile path (buildHeader width height)], .error .raised⟩) ∨
    (raises (EncOp.outputFile path (buildHeader width height)) = false ∧
      raises (EncOp.setFrameBuffer (buildFrameBuffer t width)) = true ∧
      saveEXRFile t raises (some path) width height (some img) =
        ⟨[EncOp.outputFile path (buildHeader width height),
          EncOp.setFrameBuffer (buildFrameBuffer t width)], .error .raised⟩) ∨
    (raises (EncOp.outputFile path (buildHeader width height)) = false ∧
      raises (EncOp.setFrameBuffer (buildFrameBuffer t width)) = false ∧
      raises (EncOp.writePixels height) = true ∧
      saveEXRFile t raises (some path) width height (some img) =
        ⟨[EncOp.outputFile path (buildHeader width height),
          EncOp.setFrameBuffer (buildFrameBuffer t width), EncOp.writePixels height],
          .error .raised⟩) ∨
    (raises (EncOp.outputFile path (buildHeader width height)) = false ∧
      raises (EncOp.setFrameBuffer (buildFrameBuffer t width)) = false ∧
      raises (EncOp.writePixels height) = false ∧
      saveEXRFile t raises (some path) width height (some img) =
        ⟨[EncOp.outputFile path (buildHeader width height),
          EncOp.setFrameBuffer (buildFrameBuffer t width), EncOp.writePixels height],
          .ok true⟩) := by
  have hv : ¬ (width ≤ 0 ∨ height ≤ 0) := by omega
  unfold saveEXRFile
  simp only [hv, if_false]
  cases h1 : raises (EncOp.outputFile path (buildHeader width height))
  · cases h2 : raises (EncOp.setFrameBuffer (buildFrameBuffer t width))
    · cases h3 : raises (EncOp.writePixels height)
      · simp
      · simp
    · simp
  · simp

theorem saveEXRFile_ops_of_valid (t : Target) (raises : EncOp → Bool) (path : String)
    (width height : Int) (img : List Rgba) (hw : 0 < width) (hh : 0 < height) :
    ∃ rest, (saveEXRFile t raises (some path) width height (some img)).ops =
      EncOp.outputFile path (buildHeader width height) :: rest ∧
      (raises (EncOp.outputFile path (buildHeader width height)) = false →
        ∃ rest2, rest = EncOp.setFrameBuffer (buildFrameBuffer t width) :: rest2) := by
  rcases saveEXRFile_valid_cases t raises path width height img hw hh with
    ⟨h1, h⟩ | ⟨h1, _, h⟩ | ⟨h1, _, _, h⟩ | ⟨h1, _, _, h⟩
  · rw [h]; exact ⟨[], rfl, fun h' => by rw [h1] at h'; cases h'⟩
  · rw [h]; exact ⟨_, rfl, fun _ => ⟨_, rfl⟩⟩
  · rw [h]; exact ⟨_, rfl, fun _ => ⟨_, rfl⟩⟩
  · rw [h]; exact ⟨_, rfl, fun _ => ⟨_, rfl⟩⟩

/-- Every call of `saveEXRFile` either makes no encoder call and returns false,
or has a filename, an image and positive dimensions. -/
theorem saveEXRFile_invalid_or_valid (t : Target) (raises : EncOp → Bool)
    (filename : Option String) (width height : Int) (imageData : Option (List Rgba)) :
    saveEXRFile t raises filename width height imageData = ⟨[], .ok false⟩ ∨
    ∃ path img, filename = some path ∧ imageData = some img ∧ 0 < width ∧ 0 < height := by
  cases filename with
  | none => left; unfold saveEXRFile; cases imageData <;> rfl
  | some path =>
    cases imageData with
    | none => left; rfl
    | some img =>
      by_cases hv : width ≤ 0 ∨ height ≤ 0
      · left
        unfold saveEXRFile
        simp only [hv, if_true]
      · right
        exact ⟨path, img, rfl, rfl, by omega, by omega⟩

/-- C2: for every `w > 0`, `h > 0` and source buffer of `w*h*3` samples that
`main` can hold (the allocation of line 55), the value the encoder reads for
channel R, G or B at output position `(x, y)` through the bindings that
`saveEXRFile` hands to it is source sample `((h-1-y)*w + x)*3 + k` with
`k = 0, 1, 2` respectively. -/
theorem encoder_reads_source (t : Target) (heap : Nat → Rgba) (width height : UShort)
    (src : List Half) (hw : 0 < width.val) (hh : 0 < height.val)
    (hbuf : src.length = allocBytes t width height / sizeofHalf)
    (hsrc : src.length = width.val * height.val * 3) :
    ∃ d sR sG sB, remap heap width height src = .ok d ∧
      findSlice (buildFrameBuffer t (width.val : Int)) "R" = some sR ∧
      findSlice (buildFrameBuffer t (width.val : Int)) "G" = some sG ∧
      findSlice (buildFrameBuffer t (width.val : Int)) "B" = some sB ∧
      (∀ (raises : EncOp → Bool) (path : String),
        raises (EncOp.outputFile path (buildHeader width.val height.val)) = false →
        EncOp.setFrameBuffer (buildFrameBuffer t (width.val : Int)) ∈
          (saveEXRFile t raises (some path) width.val height.val (some d.pixels)).ops) ∧
      ∀ x y, x < width.val → y < height.val →
        ∃ vr vg vb,
          src[((height.val - 1 - y) * width.val + x) * 3]? = some vr ∧
          src[((height.val - 1 - y) * width.val + x) * 3 + 1]? = some vg ∧
          src[((height.val - 1 - y) * width.val + x) * 3 + 2]? = some vb ∧
          sliceRead d.pixels sR x y = some vr ∧
          sliceRead d.pixels sG x y = some vg ∧
          sliceRead d.pixels sB x y = some vb := by
  have hfit : width.val * height.val * 3 < 2147483648 :=
    alloc_fits t width height (by rw [← hbuf, hsrc])
  obtain ⟨d, hrun, _, hrow⟩ := remap_rows heap width height src hsrc hfit
  have hwlt := width.isLt
  have hstride : rowStride t (width.val : Int) = 8 * width.val :=
    rowStride_eq t width.val (by have := two_pow_sizeBits_ge t; omega)
  refine ⟨d, ⟨.HALF, 0, 8, 8 * width.val⟩, ⟨.HALF, 2, 8, 8 * width.val⟩,
    ⟨.HALF, 4, 8, 8 * width.val⟩, hrun, ?_, ?_, ?_, ?_, ?_⟩
  · rw [buildFrameBuffer_eq, hstride]; rfl
  · rw [buildFrameBuffer_eq, hstride]; rfl
  · rw [buildFrameBuffer_eq, hstride]; rfl
  · intro raises path hr
    obtain ⟨rest, h1, h2⟩ := saveEXRFile_ops_of_valid t raises path (width.val : Int)
      (height.val : Int) d.pixels (by omega) (by omega)
    obtain ⟨rest2, h3⟩ := h2 hr
    rw [h1, h3]
    exact List.mem_cons_of_mem _ (List.mem_cons_self _ _)
  · intro x y hx hy
    have hp := hrow y x hy hx
    obtain ⟨h0, h1, h2, _⟩ := sourcePixel_samples src width.val height.val
      (height.val - 1 - y) x hsrc (by omega) hx
    obtain ⟨fR, fG, fB, _⟩ := loadHalf_fields d.pixels (y * width.val + x) _ hp
    refine ⟨_, _, _, h0, h1, h2, ?_, ?_, ?_⟩
    · unfold sliceRead
      have e : 0 + x * 8 + y * (8 * width.val) = 8 * (y * width.val + x) := by ring
      show loadHalf (bufferBytes d.pixels) (0 + x * 8 + y * (8 * width.val)) = _
      rw [e]; exact fR
    · unfold sliceRead
      have e : 2 + x * 8 + y * (8 * width.val) = 8 * (y * width.val + x) + 2 := by ring
      show loadHalf (bufferBytes d.pixels) (2 + x * 8 + y * (8 * width.val)) = _
      rw [e]; exact fG
    · unfold sliceRead
      have e : 4 + x * 8 + y * (8 * width.val) = 8 * (y * width.val + x) + 4 := by ring
      show loadHalf (bufferBytes d.pixels) (4 + x * 8 + y * (8 * width.val)) = _
      rw [e]; exact fB

/-- Witness for C2: the 3×3 image on a 32-bit target. -/
theorem encoder_reads_source_witness :
    (0 < (3 : UShort).val ∧ 0 < (3 : UShort).val ∧
      image3x3.length = allocBytes .bits32 3 3 / sizeofHalf ∧
      image3x3.length = (3 : UShort).val * (3 : UShort).val * 3) ∧
    ∃ d sR sG sB, remap zeroRgba 3 3 image3x3 = .ok d ∧
      findSlice (buildFrameBuffer .bits32 ((3 : UShort).val : Int)) "R" = some sR ∧
      findSlice (buildFrameBuffer .bits32 ((3 : UShort).val : Int)) "G" = some sG ∧
      findSlice (buildFrameBuffer .bits32 ((3 : UShort).val : Int)) "B" = some sB ∧
      (∀ (raises : EncOp → Bool) (path : String),
        raises (EncOp.outputFile path (buildHeader (3 : UShort).val (3 : UShort).val)) = false →
        EncOp.setFrameBuffer (buildFrameBuffer .bits32 ((3 : UShort).val : Int)) ∈
          (saveEXRFile .bits32 raises (some path) (3 : UShort).val (3 : UShort).val
            (some d.pixels)).ops) ∧
      ∀ x y, x < (3 : UShort).val → y < (3 : UShort).val →
        ∃ vr vg vb,
          image3x3[(((3 : UShort).val - 1 - y) * (3 : UShort).val + x) * 3]? = some vr ∧
          image3x3[(((3 : UShort).val - 1 - y) * (3 : UShort).val + x) * 3 + 1]? = some vg ∧
          image3x3[(((3 : UShort).val - 1 - y) * (3 : UShort).val + x) * 3 + 2]? = some vb ∧
          sliceRead d.pixels sR x y = some vr ∧
          sliceRead d.pixels sG x y = some vg ∧
          sliceRead d.pixels sB x y = some vb :=
  ⟨⟨by decide, by decide, by decide, by decide⟩,
    encoder_reads_source .bits32 zeroRgba 3 3 image3x3 (by decide) (by decide) (by decide)
      (by decide)⟩

/-! ## The control flow of `main` -/

theorem main_usage (env : Env) (argv : List String) (h : argv.length < 3) :
    main env argv = ⟨none, none, none, .ok (-1)⟩ := by
  unfold main
  rw [if_pos h]

theorem main_cons (env : Env) (a0 name out : String) (rest : List String) :
    main env (a0 :: name :: out :: rest) =
      mainAfterLoad env (a0 :: name :: out :: rest)
        (loadTGAFile env.target env.files env.mallocOk env.heapHalf env.bitdepth0 (some name)
          env.width0 env.height0) := by
  unfold main
  rw [if_neg (by simp only [List.length_cons]; omega)]
  rfl

theorem main_of_load_null (env : Env) (a0 name out : String) (rest : List String)
    (hret : (loadTGAFile env.target env.files env.mallocOk env.heapHalf env.bitdepth0 (some name)
      env.width0 env.height0).ret = .ok none) :
    main env (a0 :: name :: out :: rest) =
      ⟨some (loadTGAFile env.target env.files env.mallocOk env.heapHalf env.bitdepth0 (some name)
        env.width0 env.height0), none, none, .ok (-1)⟩ := by
  rw [main_cons]
  unfold mainAfterLoad
  rw [hret]

theorem main_of_load_fault (env : Env) (a0 name out : String) (rest : List String) (f : Fault)
    (hret : (loadTGAFile env.target env.files env.mallocOk env.heapHalf env.bitdepth0 (some name)
      env.width0 env.height0).ret = .error f) :
    main env (a0 :: name :: out :: rest) =
      ⟨some (loadTGAFile env.target env.files env.mallocOk env.heapHalf env.bitdepth0 (some name)
        env.width0 env.height0), none, none, .error f⟩ := by
  rw [main_cons]
  unfold mainAfterLoad
  rw [hret]

theorem main_of_load_image (env : Env) (a0 name out : String) (rest : List String)
    (ld : Loaded) (img : List Half)
    (hld : loadTGAFile env.target env.files env.mallocOk env.heapHalf env.bitdepth0 (some name)
      env.width0 env.height0 = ld)
    (hret : ld.ret = .ok (some img)) :
    main env (a0 :: name :: out :: rest) =
      mainAfterRemap env (a0 :: name :: out :: rest) ld
        (remap env.heapRgba ld.width ld.height img) := by
  rw [main_cons, hld]
  unfold mainAfterLoad
  rw [hret]

theorem main_of_remap_fault (env : Env) (a0 name out : String) (rest : List String)
    (ld : Loaded) (img : List Half) (f : Fault)
    (hld : loadTGAFile env.target env.files env.mallocOk env.heapHalf env.bitdepth0 (some name)
      env.width0 env.height0 = ld)
    (hret : ld.ret = .ok (some img))
    (hremap : remap env.heapRgba ld.width ld.height img = .error f) :
    main env (a0 :: name :: out :: rest) = ⟨some ld, none, none, .error f⟩ := by
  rw [main_of_load_image env a0 name out rest ld img hld hret, hremap]
  rfl

theorem main_of_remap_ok (env : Env) (a0 name out : String) (rest : List String)
    (ld : Loaded) (img : List Half) (d : Dest)
    (hld : loadTGAFile env.target env.files env.mallocOk env.heapHalf env.bitdepth0 (some name)
      env.width0 env.height0 = ld)
    (hret : ld.ret = .ok (some img))
    (hremap : remap env.heapRgba ld.width ld.height img = .ok d) :
    main env (a0 :: name :: out :: rest) =
      ⟨some ld, some d.pixels,
        some (⟨some out, ld.width.val, ld.height.val, some d.pixels⟩,
          saveEXRFile env.target env.encoderRaises (some out) ld.width.val ld.height.val
            (some d.pixels)),
        mainExit (saveEXRFile env.target env.encoderRaises (some out) ld.width.val ld.height.val
            (some d.pixels)).ret⟩ := by
  rw [main_of_load_image env a0 name out rest ld img hld hret, hremap]
  simp only [mainAfterRemap, List.getElem?_cons_succ, List.getElem?_cons_zero]

/-! ## Claims about the bit-depth gate -/

theorem getElem?_of_lt_some {α : Type} (l : List α) (k n : Nat) (a : α) (h : l[n]? = some a)
    (hk : k ≤ n) : ∃ b, l[k]? = some b := by
  have := length_gt_of_getElem? l n a h
  exact ⟨l[k], List.getElem?_eq_getElem (by omega)⟩

theorem loadTGAFile_reject (t : Target) (files : String → Option (List Byte))
    (mallocOk : Nat → Bool) (heap : Nat → Half)
    (bd0 : Byte) (name : String) (w0 h0 : UShort) (bytes : List Byte) (b : Byte)
    (hfile : files name = some bytes) (h16 : bytes[16]? = some b) (hb : b ≠ 48) :
    ∃ w h, loadTGAFile t files mallocOk heap bd0 (some name) w0 h0 =
      ⟨w, h, some ⟨bytes, 17 + min 1 (bytes.length - 17), true⟩, .ok none⟩ := by
  obtain ⟨b12, h12⟩ := getElem?_of_lt_some bytes 12 16 b h16 (by omega)
  obtain ⟨b13, h13⟩ := getElem?_of_lt_some bytes 13 16 b h16 (by omega)
  obtain ⟨b14, h14⟩ := getElem?_of_lt_some bytes 14 16 b h16 (by omega)
  obtain ⟨b15, h15⟩ := getElem?_of_lt_some bytes 15 16 b h16 (by omega)
  refine ⟨mkU16 b12 b13, mkU16 b14 b15, ?_⟩
  rw [loadTGAFile_header t files mallocOk heap bd0 name w0 h0 bytes b12 b13 b14 b15 b hfile h12
    h13 h14 h15 h16, if_pos hb]

theorem readPayload_dims (t : Target) (mallocOk : Nat → Bool) (heap : Nat → Half)
    (w h : UShort) (f : FILE) :
    (readPayload t mallocOk heap w h f).width = w ∧
      (readPayload t mallocOk heap w h f).height = h := ⟨rfl, rfl⟩

theorem loadTGAFile_dims (t : Target) (files : String → Option (List Byte))
    (mallocOk : Nat → Bool) (heap : Nat → Half)
    (bd0 : Byte) (name : String) (w0 h0 : UShort) (bytes : List Byte)
    (b12 b13 b14 b15 b16 : Byte)
    (hfile : files name = some bytes)
    (h12 : bytes[12]? = some b12) (h13 : bytes[13]? = some b13)
    (h14 : bytes[14]? = some b14) (h15 : bytes[15]? = some b15)
    (h16 : bytes[16]? = some b16) :
    (loadTGAFile t files mallocOk heap bd0 (some name) w0 h0).width = mkU16 b12 b13 ∧
    (loadTGAFile t files mallocOk heap bd0 (some name) w0 h0).height = mkU16 b14 b15 := by
  rw [loadTGAFile_header t files mallocOk heap bd0 name w0 h0 bytes b12 b13 b14 b15 b16 hfile h12
    h13 h14 h15 h16]
  by_cases hb : b16 ≠ 48
  · rw [if_pos hb]
    exact ⟨rfl, rfl⟩
  · rw [if_neg hb]
    exact readPayload_dims t mallocOk heap (mkU16 b12 b13) (mkU16 b14 b15)
      ⟨bytes, 17 + min 1 (bytes.length - 17), true⟩

/-- The rejecting half of the bit-depth gate: when the input opens and its byte
at offset 16 is not 48, `loadTGAFile` returns NULL with the stream position
still inside the 18-byte header, and `main` returns -1 without building a
destination buffer and without calling `saveEXRFile`. -/
theorem main_of_rejected (env : Env) (a0 name out : String) (rest : List String)
    (bytes : List Byte) (b : Byte)
    (hfile : env.files name = some bytes) (h16 : bytes[16]? = some b) (hb : b ≠ 48) :
    ∃ f, (main env (a0 :: name :: out :: rest)).loaded =
        some (loadTGAFile env.target env.files env.mallocOk env.heapHalf env.bitdepth0
          (some name) env.width0 env.height0) ∧
      (loadTGAFile env.target env.files env.mallocOk env.heapHalf env.bitdepth0 (some name)
        env.width0 env.height0).ret = .ok none ∧
      (loadTGAFile env.target env.files env.mallocOk env.heapHalf env.bitdepth0 (some name)
        env.width0 env.height0).infile = some f ∧
      f.pos ≤ 18 ∧
      (main env (a0 :: name :: out :: rest)).pixels = none ∧
      (main env (a0 :: name :: out :: rest)).saved = none ∧
      (main env (a0 :: name :: out :: rest)).exit = .ok (-1) := by
  obtain ⟨w, h, hld⟩ := loadTGAFile_reject env.target env.files env.mallocOk env.heapHalf
    env.bitdepth0 name env.width0 env.height0 bytes b hfile h16 hb
  have hret : (loadTGAFile env.target env.files env.mallocOk env.heapHalf env.bitdepth0
      (some name) env.width0 env.height0).ret = .ok none := by rw [hld]
  refine ⟨⟨bytes, 17 + min 1 (bytes.length - 17), true⟩, ?_, hret, by rw [hld], ?_, ?_, ?_, ?_⟩
  · rw [main_of_load_null env a0 name out rest hret]
  · show 17 + min 1 (bytes.length - 17) ≤ 18
    omega
  · rw [main_of_load_null env a0 name out rest hret]
  · rw [main_of_load_null env a0 name out rest hret]
  · rw [main_of_load_null env a0 name out rest hret]

/-- The accepting half of the bit-depth gate holds whenever `malloc` grants the
request of line 55: the byte 48 at offset 16 then gives an image. -/
theorem loadTGAFile_accepts_of_malloc (t : Target) (files : String → Option (List Byte))
    (mallocOk : Nat → Bool) (heap : Nat → Half)
    (bd0 : Byte) (name : String) (w0 h0 : UShort) (bytes : List Byte)
    (b12 b13 b14 b15 : Byte)
    (hfile : files name = some bytes)
    (h12 : bytes[12]? = some b12) (h13 : bytes[13]? = some b13)
    (h14 : bytes[14]? = some b14) (h15 : bytes[15]? = some b15)
    (h16 : bytes[16]? = some 48)
    (hok : mallocOk (allocBytes t (mkU16 b12 b13) (mkU16 b14 b15)) = true) :
    ∃ img, (loadTGAFile t files mallocOk heap bd0 (some name) w0 h0).ret = .ok (some img) := by
  obtain ⟨img, hrun, _⟩ := readPayload_ok t mallocOk heap (mkU16 b12 b13) (mkU16 b14 b15)
    ⟨bytes, 17 + min 1 (bytes.length - 17), true⟩ hok
  refine ⟨img, ?_⟩
  rw [loadTGAFile_header t files mallocOk heap bd0 name w0 h0 bytes b12 b13 b14 b15 48 hfile
    h12 h13 h14 h15 h16, if_neg (show ¬ (48 : Byte) ≠ 48 from fun h => h rfl), hrun]

/-- C3, the code at the failing input: the 18-byte header FF FF FF FF at 48
bits opens and carries 48 at offset 16, but the `int` value of
`width*height*3` is -393213, the request of line 55 becomes
18446744073708765190 bytes (4294180870 with a 32-bit `size_t`), `malloc`
refuses it, and `loadTGAFile` returns NULL instead of an image; `main`
returns -1 as for a rejected file. -/
theorem loadTGAFile_null_at_depth_48 :
    (headerBytes 255 255 255 255 48)[16]? = some 48 ∧
      allocBytes .bits64 65535 65535 = 18446744073708765190 ∧
      (envOf .bits64 (headerBytes 255 255 255 255 48)).mallocOk 18446744073708765190 = false ∧
      (loadTGAFile .bits64 (envOf .bits64 (headerBytes 255 255 255 255 48)).files
        (envOf .bits64 (headerBytes 255 255 255 255 48)).mallocOk (fun _ => 0) 0
        (some "in.tga") 0 0).ret = .ok none ∧
      (main (envOf .bits64 (headerBytes 255 255 255 255 48))
        ["tga2exr", "in.tga", "out.exr"]).pixels = none ∧
      (main (envOf .bits64 (headerBytes 255 255 255 255 48))
        ["tga2exr", "in.tga", "out.exr"]).saved = none ∧
      (main (envOf .bits64 (headerBytes 255 255 255 255 48))
        ["tga2exr", "in.tga", "out.exr"]).exit = .ok (-1) ∧
      (envOf .bits32 (headerBytes 255 255 255 255 48)).mallocOk
        (allocBytes .bits32 65535 65535) = false ∧
      (loadTGAFile .bits32 (envOf .bits32 (headerBytes 255 255 255 255 48)).files
        (envOf .bits32 (headerBytes 255 255 255 255 48)).mallocOk (fun _ => 0) 0
        (some "in.tga") 0 0).ret = .ok none :=
  ⟨rfl, by decide, by decide, rfl, rfl, rfl, rfl, by decide, rfl⟩

/-! ## Claims about the header layout -/

theorem drop_eq_of_getElem?_eq {α : Type} (l l' : List α) (n : Nat)
    (h : ∀ k, n ≤ k → l'[k]? = l[k]?) : l'.drop n = l.drop n := by
  apply List.ext_getElem?
  intro j
  rw [List.getElem?_drop, List.getElem?_drop]
  exact h (n + j) (by omega)

/-- The bytes a read delivers depend on the stream only through what lies at
and behind the read position. -/
theorem fread_data_congr (t : Target) (size count : Nat) (bytes bytes' : List Byte) (p : Nat)
    (hlen : bytes'.length = bytes.length) (hdrop : bytes'.drop p = bytes.drop p) :
    (fread t size count ⟨bytes', p, true⟩).1 = (fread t size count ⟨bytes, p, true⟩).1 := by
  rw [fread_eq, fread_eq]
  show (bytes'.drop p).take (min _ (bytes'.length - p)) =
    (bytes.drop p).take (min _ (bytes.length - p))
  rw [hdrop, hlen]

/-- C4: for a stream of at least 18 bytes, width and height are the
little-endian 16-bit values at offsets 12 and 14; the bit depth is byte 16: any
value but 48 makes `loadTGAFile` return NULL with the stream at offset 18, and
with 48 (and `malloc` granting the request of line 55) an image is returned
whose sample `i` is the little-endian value of bytes `18+2i`, `19+2i`; a stream
that differs only in bytes 0..11 and 17 gives the same width, height and
returned value, decision and samples included. -/
theorem loadTGAFile_layout (t : Target) (files files' : String → Option (List Byte))
    (mallocOk : Nat → Bool) (heap : Nat → Half) (bd0 : Byte) (name : String) (w0 h0 : UShort)
    (bytes bytes' : List Byte) (ld ld' : Loaded)
    (hfile : files name = some bytes) (hfile' : files' name = some bytes')
    (hld : loadTGAFile t files mallocOk heap bd0 (some name) w0 h0 = ld)
    (hld' : loadTGAFile t files' mallocOk heap bd0 (some name) w0 h0 = ld')
    (hlen : 18 ≤ bytes.length) (hlen' : bytes'.length = bytes.length)
    (hsame : ∀ k, (12 ≤ k ∧ k ≤ 16) ∨ 18 ≤ k → bytes'[k]? = bytes[k]?) :
    (∃ b12 b13 b14 b15 b16,
      bytes[12]? = some b12 ∧ bytes[13]? = some b13 ∧ bytes[14]? = some b14 ∧
      bytes[15]? = some b15 ∧ bytes[16]? = some b16 ∧
      ld.width.val = b12.val + 256 * b13.val ∧
      ld.height.val = b14.val + 256 * b15.val ∧
      (b16 ≠ 48 → ld.ret = .ok none ∧ ld.infile = some ⟨bytes, 18, true⟩) ∧
      (b16 = 48 → mallocOk (allocBytes t ld.width ld.height) = true →
        ∃ img, ld.ret = .ok (some img) ∧
          img.length = allocBytes t ld.width ld.height / sizeofHalf ∧
          (ld.width.val * ld.height.val * 3 < 2147483648 →
            img.length = ld.width.val * ld.height.val * 3) ∧
          ∀ i a b, i < img.length → bytes[18 + 2 * i]? = some a →
            bytes[19 + 2 * i]? = some b → img[i]? = some (mkU16 a b))) ∧
    ld'.width = ld.width ∧ ld'.height = ld.height ∧ ld'.ret = ld.ret := by
  obtain ⟨b12, h12⟩ : ∃ x, bytes[12]? = some x := ⟨_, List.getElem?_eq_getElem (by omega)⟩
  obtain ⟨b13, h13⟩ : ∃ x, bytes[13]? = some x := ⟨_, List.getElem?_eq_getElem (by omega)⟩
  obtain ⟨b14, h14⟩ : ∃ x, bytes[14]? = some x := ⟨_, List.getElem?_eq_getElem (by omega)⟩
  obtain ⟨b15, h15⟩ : ∃ x, bytes[15]? = some x := ⟨_, List.getElem?_eq_getElem (by omega)⟩
  obtain ⟨b16, h16⟩ : ∃ x, bytes[16]? = some x := ⟨_, List.getElem?_eq_getElem (by omega)⟩
  have h12' := (hsame 12 (Or.inl (by omega))).trans h12
  have h13' := (hsame 13 (Or.inl (by omega))).trans h13
  have h14' := (hsame 14 (Or.inl (by omega))).trans h14
  have h15' := (hsame 15 (Or.inl (by omega))).trans h15
  have h16' := (hsame 16 (Or.inl (by omega))).trans h16
  have hp : 17 + min 1 (bytes.length - 17) = 18 := by omega
  have hp' : 17 + min 1 (bytes'.length - 17) = 18 := by omega
  have hdrop : bytes'.drop 18 = bytes.drop 18 :=
    drop_eq_of_getElem?_eq bytes bytes' 18 (fun k hk => hsame k (Or.inr hk))
  have hhdr := loadTGAFile_header t files mallocOk heap bd0 name w0 h0 bytes b12 b13 b14 b15 b16
    hfile h12 h13 h14 h15 h16
  have hhdr' := loadTGAFile_header t files' mallocOk heap bd0 name w0 h0 bytes' b12 b13 b14 b15
    b16 hfile' h12' h13' h14' h15' h16'
  rw [hld, hp] at hhdr
  rw [hld', hp'] at hhdr'
  by_cases hb : b16 ≠ 48
  · rw [if_pos hb] at hhdr hhdr'
    rw [hhdr, hhdr']
    refine ⟨⟨b12, b13, b14, b15, b16, h12, h13, h14, h15, h16, rfl, rfl,
      (fun _ => ⟨rfl, rfl⟩), (fun h => absurd h hb)⟩, rfl, rfl, rfl⟩
  · rw [if_neg hb] at hhdr hhdr'
    have hret : ld'.ret = ld.ret := by
      rw [hhdr, hhdr', readPayload_ret, readPayload_ret,
        fread_data_congr t sizeofHalf (toSizeT t (sampleCount (mkU16 b12 b13) (mkU16 b14 b15)))
          bytes bytes' 18 hlen' hdrop]
    have hw : ld.width = mkU16 b12 b13 := by rw [hhdr]; rfl
    have hh : ld.height = mkU16 b14 b15 := by rw [hhdr]; rfl
    have hw' : ld'.width = mkU16 b12 b13 := by rw [hhdr']; rfl
    have hh' : ld'.height = mkU16 b14 b15 := by rw [hhdr']; rfl
    refine ⟨⟨b12, b13, b14, b15, b16, h12, h13, h14, h15, h16, by rw [hw]; rfl, by rw [hh]; rfl,
      (fun h => absurd h hb), ?_⟩, by rw [hw, hw'], by rw [hh, hh'], hret⟩
    intro _ hok
    rw [hw, hh] at hok ⊢
    obtain ⟨img, hrun, hil, hsam, _⟩ := readPayload_ok t mallocOk heap (mkU16 b12 b13)
      (mkU16 b14 b15) ⟨bytes, 18, true⟩ hok
    refine ⟨img, by rw [hhdr, hrun], hil, ?_, ?_⟩
    · intro hfit
      rw [hil, allocBytes_eq t _ _ _ (sampleCount_eq _ _ hfit)]
      unfold sizeofHalf
      omega
    · intro i a b hi ha hb'
      have e : 18 + 2 * i + 1 = 19 + 2 * i := by omega
      exact hsam i a b hi ha (by rw [e]; exact hb')

theorem sampleFile_same (k : Nat) (hk : (12 ≤ k ∧ k ≤ 16) ∨ 18 ≤ k) :
    sampleFileAlt[k]? = sampleFile[k]? := by
  rcases hk with ⟨h1, h2⟩ | h
  · interval_cases k <;> rfl
  · unfold sampleFileAlt sampleFile headerBytes
    rw [List.getElem?_append_right (by simpa using h),
      List.getElem?_append_right (by simpa using h)]
    rfl

/-- Witness for C4: `sampleFile` and `sampleFileAlt`, which differ in bytes
0..11 and 17, both give the 1×2 image with the samples 1 to 6. -/
theorem loadTGAFile_layout_witness :
    (((fun _ => some sampleFile) : String → Option (List Byte)) "in.tga" = some sampleFile ∧
      ((fun _ => some sampleFileAlt) : String → Option (List Byte)) "in.tga"
        = some sampleFileAlt ∧
      loadTGAFile .bits64 (fun _ => some sampleFile) (fun n => decide (n ≤ 2147483647))
        (fun _ => 0) 0 (some "in.tga") 0 0 =
        ⟨1, 2, some ⟨sampleFile, 30, true⟩, .ok (some [1, 2, 3, 4, 5, 6])⟩ ∧
      loadTGAFile .bits64 (fun _ => some sampleFileAlt) (fun n => decide (n ≤ 2147483647))
        (fun _ => 0) 0 (some "in.tga") 0 0 =
        ⟨1, 2, some ⟨sampleFileAlt, 30, true⟩, .ok (some [1, 2, 3, 4, 5, 6])⟩ ∧
      18 ≤ sampleFile.length ∧ sampleFileAlt.length = sampleFile.length ∧
      ∀ k, (12 ≤ k ∧ k ≤ 16) ∨ 18 ≤ k → sampleFileAlt[k]? = sampleFile[k]?) ∧
    ((∃ b12 b13 b14 b15 b16,
      sampleFile[12]? = some b12 ∧ sampleFile[13]? = some b13 ∧ sampleFile[14]? = some b14 ∧
      sampleFile[15]? = some b15 ∧ sampleFile[16]? = some b16 ∧
      (1 : UShort).val = b12.val + 256 * b13.val ∧
      (2 : UShort).val = b14.val + 256 * b15.val ∧
      (b16 ≠ 48 → (Except.ok (some [1, 2, 3, 4, 5, 6]) : Except Fault (Option (List Half)))
          = .ok none ∧
        some (⟨sampleFile, 30, true⟩ : FILE) = some ⟨sampleFile, 18, true⟩) ∧
      (b16 = 48 → decide (allocBytes .bits64 1 2 ≤ 2147483647) = true →
        ∃ img, (Except.ok (some [1, 2, 3, 4, 5, 6]) : Except Fault (Option (List Half)))
            = .ok (some img) ∧
          img.length = allocBytes .bits64 1 2 / sizeofHalf ∧
          ((1 : UShort).val * (2 : UShort).val * 3 < 2147483648 →
            img.length = (1 : UShort).val * (2 : UShort).val * 3) ∧
          ∀ i a b, i < img.length → sampleFile[18 + 2 * i]? = some a →
            sampleFile[19 + 2 * i]? = some b → img[i]? = some (mkU16 a b))) ∧
    (1 : UShort) = 1 ∧ (2 : UShort) = 2 ∧
    (Except.ok (some [1, 2, 3, 4, 5, 6]) : Except Fault (Option (List Half))) =
      .ok (some [1, 2, 3, 4, 5, 6])) ∧
    sampleFile[16]? = some 48 ∧ decide (allocBytes .bits64 1 2 ≤ 2147483647) = true :=
  ⟨⟨rfl, rfl, rfl, rfl, by decide, rfl, sampleFile_same⟩,
    loadTGAFile_layout .bits64 (fun _ => some sampleFile) (fun _ => some sampleFileAlt)
      (fun n => decide (n ≤ 2147483647)) (fun _ => 0) 0 "in.tga" 0 0 sampleFile sampleFileAlt
      ⟨1, 2, some ⟨sampleFile, 30, true⟩, .ok (some [1, 2, 3, 4, 5, 6])⟩
      ⟨1, 2, some ⟨sampleFileAlt, 30, true⟩, .ok (some [1, 2, 3, 4, 5, 6])⟩
      rfl rfl rfl rfl (by decide) rfl sampleFile_same,
    rfl, by decide⟩

/-! ## Claims about the validation in `saveEXRFile` and the exit code -/

theorem saveEXRFile_null_image (t : Target) (raises : EncOp → Bool) (filename : Option String)
    (width height : Int) :
    saveEXRFile t raises filename width height none = ⟨[], .ok false⟩ := by
  unfold saveEXRFile
  cases filename <;> rfl

theorem saveEXRFile_null_filename (t : Target) (raises : EncOp → Bool)
    (width height : Int) (imageData : Option (List Rgba)) :
    saveEXRFile t raises none width height imageData = ⟨[], .ok false⟩ := by
  unfold saveEXRFile
  cases imageData <;> rfl

theorem saveEXRFile_bad_dims (t : Target) (raises : EncOp → Bool) (filename : Option String)
    (width height : Int) (imageData : Option (List Rgba)) (h : width ≤ 0 ∨ height ≤ 0) :
    saveEXRFile t raises filename width height imageData = ⟨[], .ok false⟩ := by
  rcases saveEXRFile_invalid_or_valid t raises filename width height imageData with
    h0 | ⟨_, _, _, _, hw, hh⟩
  · exact h0
  · omega

/-- C5: a call of `saveEXRFile` with width ≤ 0, height ≤ 0 or a null image
returns false and makes no encoder call; a call with a filename, an image and
positive width and height passes the validation and calls the encoder, first
to create the output file with the header. -/
theorem saveEXRFile_validation (t : Target) (raises : EncOp → Bool) (filename : Option String)
    (width height : Int) (imageData : Option (List Rgba)) :
    ((width ≤ 0 ∨ height ≤ 0 ∨ imageData = none) →
      (saveEXRFile t raises filename width height imageData).ret = .ok false ∧
      (saveEXRFile t raises filename width height imageData).ops = []) ∧
    (∀ path img, filename = some path → imageData = some img → 0 < width → 0 < height →
      ∃ rest, (saveEXRFile t raises filename width height imageData).ops =
        EncOp.outputFile path (buildHeader width height) :: rest) := by
  constructor
  · intro h
    rcases h with h | h | h
    · rw [saveEXRFile_bad_dims t raises filename width height imageData (Or.inl h)]
      exact ⟨rfl, rfl⟩
    · rw [saveEXRFile_bad_dims t raises filename width height imageData (Or.inr h)]
      exact ⟨rfl, rfl⟩
    · rw [h, saveEXRFile_null_image]
      exact ⟨rfl, rfl⟩
  · intro path img hf hi hw hh
    rw [hf, hi]
    obtain ⟨rest, h1, _⟩ := saveEXRFile_ops_of_valid t raises path width height img hw hh
    exact ⟨rest, h1⟩

/-- Witness for C5: a call with width 0, and a valid call for a 2×1 image. -/
theorem saveEXRFile_validation_witness :
    ((((0 : Int) ≤ 0 ∨ (5 : Int) ≤ 0 ∨ (some [] : Option (List Rgba)) = none) ∧
      (saveEXRFile .bits32 (fun _ => false) (some "out.exr") 0 5 (some [])).ret = .ok false ∧
      (saveEXRFile .bits32 (fun _ => false) (some "out.exr") 0 5 (some [])).ops = []) ∧
    (((some "out.exr" : Option String) = some "out.exr" ∧
        (some [zeroRgba 0, zeroRgba 1] : Option (List Rgba)) = some [zeroRgba 0, zeroRgba 1] ∧
        (0 : Int) < 2 ∧ (0 : Int) < 1) ∧
      ∃ rest, (saveEXRFile .bits32 (fun _ => false) (some "out.exr") 2 1
          (some [zeroRgba 0, zeroRgba 1])).ops =
        EncOp.outputFile "out.exr" (buildHeader 2 1) :: rest)) :=
  ⟨⟨Or.inl (by decide),
      (saveEXRFile_validation .bits32 (fun _ => false) (some "out.exr") 0 5 (some [])).1
        (Or.inl (by decide))⟩,
    ⟨⟨rfl, rfl, by decide, by decide⟩,
      (saveEXRFile_validation .bits32 (fun _ => false) (some "out.exr") 2 1
        (some [zeroRgba 0, zeroRgba 1])).2 "out.exr" [zeroRgba 0, zeroRgba 1] rfl rfl
        (by decide) (by decide)⟩⟩

/-- C6, the code at the failing input: for a source whose header gives width 0
(height 1, 48 bits) `saveEXRFile` is called, rejects its arguments and returns
false, and `main` still returns the exit code 0. -/
theorem main_exit_zero_after_failed_save :
    ∃ args sv,
      (main (envOf .bits32 (headerBytes 0 0 1 0 48)) ["tga2exr", "in.tga", "out.exr"]).saved
        = some (args, sv) ∧
      args.width = 0 ∧ sv.ret = .ok false ∧ sv.ops = [] ∧
      (main (envOf .bits32 (headerBytes 0 0 1 0 48)) ["tga2exr", "in.tga", "out.exr"]).exit
        = .ok 0 :=
  ⟨_, _, rfl, rfl, rfl, rfl, rfl⟩

/-! ## Claims about dimensions, channels and sample counts -/

theorem mem_ops_outputFile (t : Target) (raises : EncOp → Bool) (filename : Option String)
    (width height : Int) (imageData : Option (List Rgba)) (path : String) (hd : Header)
    (h : EncOp.outputFile path hd ∈ (saveEXRFile t raises filename width height imageData).ops) :
    hd = buildHeader width height := by
  rcases saveEXRFile_invalid_or_valid t raises filename width height imageData with
    h0 | ⟨p, img, hf, hi, hw, hh⟩
  · rw [h0] at h; cases h
  · subst hf hi
    rcases saveEXRFile_valid_cases t raises p width height img hw hh with
      ⟨_, e⟩ | ⟨_, _, e⟩ | ⟨_, _, _, e⟩ | ⟨_, _, _, e⟩ <;>
    · rw [e] at h
      simp only [List.mem_cons, EncOp.outputFile.injEq, List.mem_singleton, reduceCtorEq,
        or_false, List.not_mem_nil] at h
      exact h.2

/-- The run of `main` on an accepted image whose sample count fits an `int`
and whose buffer `malloc` grants. -/
theorem main_of_accepted (env : Env) (a0 name out : String) (rest : List String)
    (bytes : List Byte) (b12 b13 b14 b15 : Byte)
    (hfile : env.files name = some bytes)
    (h12 : bytes[12]? = some b12) (h13 : bytes[13]? = some b13)
    (h14 : bytes[14]? = some b14) (h15 : bytes[15]? = some b15)
    (h16 : bytes[16]? = some 48)
    (hfit : (mkU16 b12 b13).val * (mkU16 b14 b15).val * 3 < 2147483648)
    (hok : env.mallocOk ((mkU16 b12 b13).val * (mkU16 b14 b15).val * 3 * 2) = true) :
    ∃ img pos d,
      loadTGAFile env.target env.files env.mallocOk env.heapHalf env.bitdepth0 (some name)
        env.width0 env.height0 =
          ⟨mkU16 b12 b13, mkU16 b14 b15, some ⟨bytes, pos, true⟩, .ok (some img)⟩ ∧
      img.length = (mkU16 b12 b13).val * (mkU16 b14 b15).val * 3 ∧
      (∀ i a b, i < (mkU16 b12 b13).val * (mkU16 b14 b15).val * 3 →
        bytes[17 + min 1 (bytes.length - 17) + 2 * i]? = some a →
        bytes[17 + min 1 (bytes.length - 17) + 2 * i + 1]? = some b →
        img[i]? = some (mkU16 a b)) ∧
      remap env.heapRgba (mkU16 b12 b13) (mkU16 b14 b15) img = .ok d ∧
      d.pixels.length = (mkU16 b12 b13).val * (mkU16 b14 b15).val ∧
      main env (a0 :: name :: out :: rest) =
        ⟨some ⟨mkU16 b12 b13, mkU16 b14 b15, some ⟨bytes, pos, true⟩, .ok (some img)⟩,
          some d.pixels,
          some (⟨some out, (mkU16 b12 b13).val, (mkU16 b14 b15).val, some d.pixels⟩,
            saveEXRFile env.target env.encoderRaises (some out) (mkU16 b12 b13).val
              (mkU16 b14 b15).val (some d.pixels)),
          mainExit (saveEXRFile env.target env.encoderRaises (some out) (mkU16 b12 b13).val
            (mkU16 b14 b15).val (some d.pixels)).ret⟩ := by
  obtain ⟨img, pos, hld, hlen, hsamples⟩ := loadTGAFile_accept env.target env.files env.mallocOk
    env.heapHalf env.bitdepth0 name env.width0 env.height0 bytes b12 b13 b14 b15
    ((mkU16 b12 b13).val * (mkU16 b14 b15).val * 3) hfile h12 h13 h14 h15 h16
    (sampleCount_eq _ _ hfit) hok
  obtain ⟨d, hrun, hdl, _⟩ := remap_rows env.heapRgba (mkU16 b12 b13) (mkU16 b14 b15) img hlen
    hfit
  refine ⟨img, pos, d, hld, hlen, hsamples, hrun, hdl, ?_⟩
  exact main_of_remap_ok env a0 name out rest _ img d hld rfl hrun

/-- What the code does for dimensions within the `int` range: for an accepted
source image whose header gives width `w` and height `h` with
`w*h*3 < 2^31`, the destination buffer built by `main` holds exactly `w*h`
records, `saveEXRFile` is called with exactly `w` and `h`, and any header it
hands to the encoder carries `w` and `h`. -/
theorem main_preserves_dims (env : Env) (a0 name out : String) (rest : List String)
    (bytes : List Byte) (b12 b13 b14 b15 : Byte)
    (hfile : env.files name = some bytes)
    (h12 : bytes[12]? = some b12) (h13 : bytes[13]? = some b13)
    (h14 : bytes[14]? = some b14) (h15 : bytes[15]? = some b15)
    (h16 : bytes[16]? = some 48)
    (hfit : (b12.val + 256 * b13.val) * (b14.val + 256 * b15.val) * 3 < 2147483648)
    (hok : env.mallocOk ((b12.val + 256 * b13.val) * (b14.val + 256 * b15.val) * 3 * 2) = true) :
    ∃ px args sv,
      (main env (a0 :: name :: out :: rest)).pixels = some px ∧
      px.length = (b12.val + 256 * b13.val) * (b14.val + 256 * b15.val) ∧
      (main env (a0 :: name :: out :: rest)).saved = some (args, sv) ∧
      args.width = ((b12.val + 256 * b13.val : Nat) : Int) ∧
      args.height = ((b14.val + 256 * b15.val : Nat) : Int) ∧
      args.imageData = some px ∧
      ∀ path hd, EncOp.outputFile path hd ∈ sv.ops →
        hd.width = ((b12.val + 256 * b13.val : Nat) : Int) ∧
        hd.height = ((b14.val + 256 * b15.val : Nat) : Int) := by
  obtain ⟨img, pos, d, _, _, _, _, hdl, hmain⟩ := main_of_accepted env a0 name out rest bytes
    b12 b13 b14 b15 hfile h12 h13 h14 h15 h16 hfit hok
  refine ⟨d.pixels, _, _, by rw [hmain], hdl, by rw [hmain], rfl, rfl, rfl, ?_⟩
  intro path hd hmem
  have := mem_ops_outputFile _ _ _ _ _ _ _ _ hmem
  rw [this, buildHeader_eq]
  exact ⟨rfl, rfl⟩

/-- C7, the code at the failing input: the 18-byte header 62571 × 45761 at 48
bits is accepted by `loadTGAFile` (the `int` product `width*height*3` wraps to
1, so a buffer of one sample is returned), but the `int` product
`width*height` of line 127 is negative, `new Array<Rgba>(width*height)` throws,
no destination buffer is built and `saveEXRFile` is never called, on a 64-bit
as on a 32-bit `size_t`. -/
theorem main_drops_accepted_image :
    ∀ t : Target,
      (loadTGAFile t (envOf t (headerBytes 107 244 193 178 48)).files
        (envOf t (headerBytes 107 244 193 178 48)).mallocOk (fun _ => 0) 0
        (some "in.tga") 0 0).ret = .ok (some [0]) ∧
      (loadTGAFile t (envOf t (headerBytes 107 244 193 178 48)).files
        (envOf t (headerBytes 107 244 193 178 48)).mallocOk (fun _ => 0) 0
        (some "in.tga") 0 0).width = 62571 ∧
      (loadTGAFile t (envOf t (headerBytes 107 244 193 178 48)).files
        (envOf t (headerBytes 107 244 193 178 48)).mallocOk (fun _ => 0) 0
        (some "in.tga") 0 0).height = 45761 ∧
      wrapInt (((62571 : UShort).val : Int) * ((45761 : UShort).val : Int)) = -1431655765 ∧
      (main (envOf t (headerBytes 107 244 193 178 48))
        ["tga2exr", "in.tga", "out.exr"]).pixels = none ∧
      (main (envOf t (headerBytes 107 244 193 178 48))
        ["tga2exr", "in.tga", "out.exr"]).saved = none ∧
      (main (envOf t (headerBytes 107 244 193 178 48))
        ["tga2exr", "in.tga", "out.exr"]).exit = .error .raised := by
  intro t
  cases t
  · exact ⟨rfl, rfl, rfl, by decide, rfl, rfl, rfl⟩
  · exact ⟨rfl, rfl, rfl, by decide, rfl, rfl, rfl⟩

theorem mem_ops_setFrameBuffer (t : Target) (raises : EncOp → Bool) (filename : Option String)
    (width height : Int) (imageData : Option (List Rgba)) (fb : FrameBuffer)
    (h : EncOp.setFrameBuffer fb ∈ (saveEXRFile t raises filename width height imageData).ops) :
    fb = buildFrameBuffer t width := by
  rcases saveEXRFile_invalid_or_valid t raises filename width height imageData with
    h0 | ⟨p, img, hf, hi, hw, hh⟩
  · rw [h0] at h; cases h
  · subst hf hi
    rcases saveEXRFile_valid_cases t raises p width height img hw hh with
      ⟨_, e⟩ | ⟨_, _, e⟩ | ⟨_, _, _, e⟩ | ⟨_, _, _, e⟩ <;>
    · rw [e] at h
      simp only [List.mem_cons, EncOp.setFrameBuffer.injEq, List.mem_singleton, reduceCtorEq,
        or_false, false_or, List.not_mem_nil] at h
      try exact h

/-- C8: a call of `saveEXRFile` that passes validation hands the encoder a
header with exactly the three channels R, G, B, all of type HALF; every frame
buffer it sets has exactly three slices with those names, of type HALF; and
neither holds an entry named A. -/
theorem saveEXRFile_channels (t : Target) (raises : EncOp → Bool) (path : String)
    (width height : Int) (img : List Rgba) (hw : 0 < width) (hh : 0 < height) :
    (∃ hd rest, (saveEXRFile t raises (some path) width height (some img)).ops =
        EncOp.outputFile path hd :: rest ∧
      hd.channels = [("R", ⟨.HALF⟩), ("G", ⟨.HALF⟩), ("B", ⟨.HALF⟩)] ∧
      "A" ∉ hd.channels.map Prod.fst) ∧
    (∀ p hd, EncOp.outputFile p hd ∈
        (saveEXRFile t raises (some path) width height (some img)).ops →
      hd.channels = [("R", ⟨.HALF⟩), ("G", ⟨.HALF⟩), ("B", ⟨.HALF⟩)]) ∧
    (∀ fb, EncOp.setFrameBuffer fb ∈
        (saveEXRFile t raises (some path) width height (some img)).ops →
      fb.map Prod.fst = ["R", "G", "B"] ∧ (∀ e ∈ fb, e.2.type = PixelType.HALF) ∧
      "A" ∉ fb.map Prod.fst) ∧
    (raises (EncOp.outputFile path (buildHeader width height)) = false →
      ∃ fb, EncOp.setFrameBuffer fb ∈
        (saveEXRFile t raises (some path) width height (some img)).ops) := by
  obtain ⟨rest, h1, h2⟩ := saveEXRFile_ops_of_valid t raises path width height img hw hh
  refine ⟨⟨buildHeader width height, rest, h1, by rw [buildHeader_eq], ?_⟩, ?_, ?_, ?_⟩
  · rw [buildHeader_eq]; simp
  · intro p hd hmem
    rw [mem_ops_outputFile _ _ _ _ _ _ _ _ hmem, buildHeader_eq]
  · intro fb hmem
    rw [mem_ops_setFrameBuffer _ _ _ _ _ _ _ hmem, buildFrameBuffer_eq]
    refine ⟨rfl, ?_, by simp⟩
    intro e he
    simp only [List.mem_cons, List.mem_singleton, List.not_mem_nil, or_false] at he
    rcases he with h | h | h <;> rw [h]
  · intro hr
    obtain ⟨rest2, h3⟩ := h2 hr
    exact ⟨_, by rw [h1, h3]; exact List.mem_cons_of_mem _ (List.mem_cons_self _ _)⟩

/-- Witness for C8: a valid call for a 2×1 image with an encoder that never throws. -/
theorem saveEXRFile_channels_witness :
    ((0 : Int) < 2 ∧ (0 : Int) < 1) ∧
    ((∃ hd rest, (saveEXRFile .bits32 (fun _ => false) (some "out.exr") 2 1
          (some [zeroRgba 0, zeroRgba 1])).ops = EncOp.outputFile "out.exr" hd :: rest ∧
      hd.channels = [("R", ⟨.HALF⟩), ("G", ⟨.HALF⟩), ("B", ⟨.HALF⟩)] ∧
      "A" ∉ hd.channels.map Prod.fst) ∧
    (∀ p hd, EncOp.outputFile p hd ∈
        (saveEXRFile .bits32 (fun _ => false) (some "out.exr") 2 1
          (some [zeroRgba 0, zeroRgba 1])).ops →
      hd.channels = [("R", ⟨.HALF⟩), ("G", ⟨.HALF⟩), ("B", ⟨.HALF⟩)]) ∧
    (∀ fb, EncOp.setFrameBuffer fb ∈
        (saveEXRFile .bits32 (fun _ => false) (some "out.exr") 2 1
          (some [zeroRgba 0, zeroRgba 1])).ops →
      fb.map Prod.fst = ["R", "G", "B"] ∧ (∀ e ∈ fb, e.2.type = PixelType.HALF) ∧
      "A" ∉ fb.map Prod.fst) ∧
    (((fun _ => false) : EncOp → Bool) (EncOp.outputFile "out.exr" (buildHeader 2 1)) = false →
      ∃ fb, EncOp.setFrameBuffer fb ∈
        (saveEXRFile .bits32 (fun _ => false) (some "out.exr") 2 1
          (some [zeroRgba 0, zeroRgba 1])).ops)) :=
  ⟨⟨by decide, by decide⟩,
    saveEXRFile_channels .bits32 (fun _ => false) "out.exr" 2 1 [zeroRgba 0, zeroRgba 1]
      (by decide) (by decide)⟩

/-- C9, the code at the failing input: for width = height = 65535 the `int`
expression `width*height*3` has the value -393213, not 12884508675, and the
byte count passed to `malloc` is 4294180870 with a 32-bit `size_t`; for
45761 × 62571 the expression wraps all the way round to 1. -/
theorem sampleCount_wraps :
    sampleCount 65535 65535 = -393213 ∧
      ((65535 : UShort).val : Int) * ((65535 : UShort).val : Int) * 3 = 12884508675 ∧
      allocBytes .bits32 65535 65535 = 4294180870 ∧
      allocBytes .bits64 65535 65535 = 18446744073708765190 ∧
      sampleCount 45761 62571 = 1 ∧
      ((45761 : UShort).val : Int) * ((62571 : UShort).val : Int) * 3 = 8589934593 ∧
      allocBytes .bits32 45761 62571 = 2 := by
  refine ⟨by decide, by decide, by decide, by decide, by decide, by decide, by decide⟩

/-- What the code does for dimensions within the `int` range: for a stream
with an 18-byte header at 48 bits whose dimensions satisfy `w*h*3 < 2^31` and
whose payload holds fewer than `w*h*3` complete samples, `loadTGAFile` returns
an image whose first samples are the samples of the stream in order, `main`
builds the destination buffer and calls `saveEXRFile`, which passes its
validation and calls the encoder. -/
theorem short_read_accepted (env : Env) (a0 name out : String) (rest : List String)
    (bytes : List Byte) (b12 b13 b14 b15 : Byte)
    (hfile : env.files name = some bytes) (hlen : 18 ≤ bytes.length)
    (h12 : bytes[12]? = some b12) (h13 : bytes[13]? = some b13)
    (h14 : bytes[14]? = some b14) (h15 : bytes[15]? = some b15)
    (h16 : bytes[16]? = some 48)
    (hfit : (b12.val + 256 * b13.val) * (b14.val + 256 * b15.val) * 3 < 2147483648)
    (hok : env.mallocOk ((b12.val + 256 * b13.val) * (b14.val + 256 * b15.val) * 3 * 2) = true)
    (hshort : (bytes.length - 18) / 2 < (b12.val + 256 * b13.val) * (b14.val + 256 * b15.val) * 3) :
    ∃ img px args sv more,
      (loadTGAFile env.target env.files env.mallocOk env.heapHalf env.bitdepth0 (some name) env.width0
        env.height0).ret = .ok (some img) ∧
      img.length = (b12.val + 256 * b13.val) * (b14.val + 256 * b15.val) * 3 ∧
      (∀ i a b, i < (bytes.length - 18) / 2 →
        bytes[18 + 2 * i]? = some a → bytes[19 + 2 * i]? = some b →
        img[i]? = some (mkU16 a b)) ∧
      (main env (a0 :: name :: out :: rest)).pixels = some px ∧
      (main env (a0 :: name :: out :: rest)).saved = some (args, sv) ∧
      sv.ops = EncOp.outputFile out (buildHeader args.width args.height) :: more := by
  obtain ⟨img, pos, d, hld, hil, hsamples, _, _, hmain⟩ := main_of_accepted env a0 name out rest
    bytes b12 b13 b14 b15 hfile h12 h13 h14 h15 h16 hfit hok
  have hp : 17 + min 1 (bytes.length - 17) = 18 := by omega
  rw [hp] at hsamples
  have hpos : 0 < (b12.val + 256 * b13.val) * (b14.val + 256 * b15.val) := by omega
  have hwpos : 0 < b12.val + 256 * b13.val := Nat.pos_of_mul_pos_right hpos
  have hhpos : 0 < b14.val + 256 * b15.val := Nat.pos_of_mul_pos_left hpos
  obtain ⟨more, hops, _⟩ := saveEXRFile_ops_of_valid env.target env.encoderRaises out
    ((mkU16 b12 b13).val : Int) ((mkU16 b14 b15).val : Int) d.pixels
    (by show (0 : Int) < ((b12.val + 256 * b13.val : Nat) : Int); omega)
    (by show (0 : Int) < ((b14.val + 256 * b15.val : Nat) : Int); omega)
  refine ⟨img, d.pixels, _, _, more, by rw [hld], hil, ?_, by rw [hmain], by rw [hmain], hops⟩
  intro i a b hi ha hb
  have e : 18 + 2 * i + 1 = 19 + 2 * i := by omega
  exact hsamples i a b (Nat.lt_trans hi hshort) ha (by rw [e]; exact hb)

/-- C10, the code at the failing input: the header 45761 × 62571 at 48 bits
followed by a single sample is a short read that `loadTGAFile` accepts,
returning the sample, but the `int` product `width*height` of line 127 is
negative, `new Array<Rgba>(width*height)` throws, and the remap and write
stages are never reached, on a 64-bit as on a 32-bit `size_t`. -/
theorem short_read_stops_pipeline :
    ∀ t : Target,
      (headerBytes 193 178 107 244 48 ++ [7, 0])[16]? = some 48 ∧
      ((headerBytes 193 178 107 244 48 ++ [7, 0]).length - 18) / 2 < 45761 * 62571 * 3 ∧
      (loadTGAFile t (envOf t (headerBytes 193 178 107 244 48 ++ [7, 0])).files
        (envOf t (headerBytes 193 178 107 244 48 ++ [7, 0])).mallocOk (fun _ => 0) 0
        (some "in.tga") 0 0).width = 45761 ∧
      (loadTGAFile t (envOf t (headerBytes 193 178 107 244 48 ++ [7, 0])).files
        (envOf t (headerBytes 193 178 107 244 48 ++ [7, 0])).mallocOk (fun _ => 0) 0
        (some "in.tga") 0 0).height = 62571 ∧
      (loadTGAFile t (envOf t (headerBytes 193 178 107 244 48 ++ [7, 0])).files
        (envOf t (headerBytes 193 178 107 244 48 ++ [7, 0])).mallocOk (fun _ => 0) 0
        (some "in.tga") 0 0).ret = .ok (some [7]) ∧
      (main (envOf t (headerBytes 193 178 107 244 48 ++ [7, 0]))
        ["tga2exr", "in.tga", "out.exr"]).pixels = none ∧
      (main (envOf t (headerBytes 193 178 107 244 48 ++ [7, 0]))
        ["tga2exr", "in.tga", "out.exr"]).saved = none ∧
      (main (envOf t (headerBytes 193 178 107 244 48 ++ [7, 0]))
        ["tga2exr", "in.tga", "out.exr"]).exit = .error .raised := by
  intro t
  cases t
  · exact ⟨rfl, by decide, rfl, rfl, rfl, rfl, rfl, rfl⟩
  · exact ⟨rfl, by decide, rfl, rfl, rfl, rfl, rfl, rfl⟩

/-! ## Claims about encoder failures and the output path -/

/-- C11: `saveEXRFile` returns true only when it made exactly the three encoder
calls (create the output file, set the frame buffer, write `height` rows) and
none of them threw; when an encoder call it makes throws, the result is the
exception, which `main` does not catch either; `writePixels` is never requested
more than once nor for a row count other than `height`. -/
theorem saveEXRFile_result (t : Target) (raises : EncOp → Bool) (filename : Option String)
    (width height : Int) (imageData : Option (List Rgba)) :
    ((saveEXRFile t raises filename width height imageData).ret = .ok true →
      ∃ path, filename = some path ∧
        (saveEXRFile t raises filename width height imageData).ops =
          [EncOp.outputFile path (buildHeader width height),
            EncOp.setFrameBuffer (buildFrameBuffer t width), EncOp.writePixels height] ∧
        ∀ op ∈ (saveEXRFile t raises filename width height imageData).ops, raises op = false) ∧
    ((∃ op ∈ (saveEXRFile t raises filename width height imageData).ops, raises op = true) →
      (saveEXRFile t raises filename width height imageData).ret = .error .raised ∧
      mainExit (saveEXRFile t raises filename width height imageData).ret = .error .raised) ∧
    (∀ n, EncOp.writePixels n ∈ (saveEXRFile t raises filename width height imageData).ops →
      n = height) ∧
    ((saveEXRFile t raises filename width height imageData).ops.count (EncOp.writePixels height)
      ≤ 1) := by
  rcases saveEXRFile_invalid_or_valid t raises filename width height imageData with
    h0 | ⟨p, img, hf, hi, hw, hh⟩
  · rw [h0]
    refine ⟨(fun h => by cases h), (fun ⟨op, hop, _⟩ => by cases hop), (fun n hn => by cases hn), ?_⟩
    simp
  · subst hf hi
    rcases saveEXRFile_valid_cases t raises p width height img hw hh with
      ⟨h1, e⟩ | ⟨h1, h2, e⟩ | ⟨h1, h2, h3, e⟩ | ⟨h1, h2, h3, e⟩
    · rw [e]
      refine ⟨(fun h => by cases h), (fun _ => ⟨rfl, rfl⟩), ?_, ?_⟩
      · intro n hn
        simp only [List.mem_singleton, reduceCtorEq] at hn
      · simp [List.count_cons]
    · rw [e]
      refine ⟨(fun h => by cases h), (fun _ => ⟨rfl, rfl⟩), ?_, ?_⟩
      · intro n hn
        simp only [List.mem_cons, List.mem_singleton, reduceCtorEq, or_self,
          List.not_mem_nil] at hn
      · simp [List.count_cons]
    · rw [e]
      refine ⟨(fun h => by cases h), (fun _ => ⟨rfl, rfl⟩), ?_, ?_⟩
      · intro n hn
        simp only [List.mem_cons, List.mem_singleton, reduceCtorEq, false_or,
          EncOp.writePixels.injEq, List.not_mem_nil, or_false] at hn
        exact hn
      · simp [List.count_cons]
    · rw [e]
      refine ⟨fun _ => ⟨p, rfl, rfl, ?_⟩, ?_, ?_, ?_⟩
      · intro op hop
        simp only [List.mem_cons, List.mem_singleton, List.not_mem_nil, or_false] at hop
        rcases hop with h | h | h <;> rw [h] <;> assumption
      · rintro ⟨op, hop, hr⟩
        simp only [List.mem_cons, List.mem_singleton, List.not_mem_nil, or_false] at hop
        rcases hop with h | h | h <;> rw [h] at hr
        · rw [h1] at hr; cases hr
        · rw [h2] at hr; cases hr
        · rw [h3] at hr; cases hr
      · intro n hn
        simp only [List.mem_cons, List.mem_singleton, reduceCtorEq, false_or,
          EncOp.writePixels.injEq, List.not_mem_nil, or_false] at hn
        exact hn
      · simp [List.count_cons]

/-- Witness for C11: a valid call whose encoder throws when the rows are written,
and one whose encoder never throws. -/
theorem saveEXRFile_result_witness :
    ((∃ op ∈ (saveEXRFile .bits32 (fun op => op == EncOp.writePixels 1) (some "out.exr") 2 1
          (some [zeroRgba 0, zeroRgba 1])).ops,
        (fun op => op == EncOp.writePixels 1) op = true) ∧
      (saveEXRFile .bits32 (fun op => op == EncOp.writePixels 1) (some "out.exr") 2 1
        (some [zeroRgba 0, zeroRgba 1])).ret = .error .raised ∧
      mainExit (saveEXRFile .bits32 (fun op => op == EncOp.writePixels 1) (some "out.exr") 2 1
        (some [zeroRgba 0, zeroRgba 1])).ret = .error .raised) ∧
    ((saveEXRFile .bits32 (fun _ => false) (some "out.exr") 2 1
        (some [zeroRgba 0, zeroRgba 1])).ret = .ok true ∧
      ∃ path, (some "out.exr" : Option String) = some path ∧
        (saveEXRFile .bits32 (fun _ => false) (some "out.exr") 2 1
          (some [zeroRgba 0, zeroRgba 1])).ops =
          [EncOp.outputFile path (buildHeader 2 1),
            EncOp.setFrameBuffer (buildFrameBuffer .bits32 2), EncOp.writePixels 1] ∧
        ∀ op ∈ (saveEXRFile .bits32 (fun _ => false) (some "out.exr") 2 1
          (some [zeroRgba 0, zeroRgba 1])).ops, (fun _ => false) op = false) :=
  ⟨⟨⟨EncOp.writePixels 1, by decide, by decide⟩,
      (saveEXRFile_result .bits32 (fun op => op == EncOp.writePixels 1) (some "out.exr") 2 1
        (some [zeroRgba 0, zeroRgba 1])).2.1 ⟨EncOp.writePixels 1, by decide, by decide⟩⟩,
    ⟨rfl, (saveEXRFile_result .bits32 (fun _ => false) (some "out.exr") 2 1
        (some [zeroRgba 0, zeroRgba 1])).1 rfl⟩⟩

/-- C12 (amended): a call of `saveEXRFile` with no path (a null filename) returns
false without any encoder call, whatever the image, width and height are. -/
theorem saveEXRFile_rejects_null_path (t : Target) (raises : EncOp → Bool)
    (width height : Int) (imageData : Option (List Rgba)) :
    (saveEXRFile t raises none width height imageData).ret = .ok false ∧
      (saveEXRFile t raises none width height imageData).ops = [] := by
  rw [saveEXRFile_null_filename]
  exact ⟨rfl, rfl⟩

/-- Counterexample to C12 as stated: with the zero-length path `""`, a 1×1 image
and an encoder that does not throw, `saveEXRFile` passes its validation, makes
all three encoder calls with that path and returns true. -/
theorem saveEXRFile_rejects_null_path_counterexample :
    ("" : String).length = 0 ∧
      (saveEXRFile .bits32 (fun _ => false) (some "") 1 1 (some [zeroRgba 0])).ret = .ok true ∧
      (saveEXRFile .bits32 (fun _ => false) (some "") 1 1 (some [zeroRgba 0])).ops =
        [EncOp.outputFile "" (buildHeader 1 1), EncOp.setFrameBuffer (buildFrameBuffer .bits32 1),
          EncOp.writePixels 1] :=
  ⟨rfl, rfl, rfl⟩

/-! ## Claims about the bindings and about the safety of the loop -/

/-- C13: for every width `w > 0` and height `h > 0` that `saveEXRFile` can
receive (its only caller passes two `unsigned short` values), the three
bindings it builds have base offsets 0, 2 and 4, pixel stride 8 and row stride
`8*w`; the two bytes addressed for channel `k` at `(x, y)` lie inside the
`8*w*h` bytes of the buffer, are field `k` of pixel `y*w + x`, lie before the
alpha bytes 6..7 of that record, and accesses for distinct `(k, x, y)` do not
overlap. -/
theorem bindings_layout (t : Target) (width height : UShort)
    (_hw : 0 < width.val) (_hh : 0 < height.val) :
    buildFrameBuffer t (width.val : Int) =
      [("R", ⟨.HALF, 0, 8, 8 * width.val⟩), ("G", ⟨.HALF, 2, 8, 8 * width.val⟩),
        ("B", ⟨.HALF, 4, 8, 8 * width.val⟩)] ∧
    (∀ k x y, k < 3 → x < width.val → y < height.val →
      2 * k + x * 8 + y * (8 * width.val) + 2 ≤ 8 * (width.val * height.val) ∧
      2 * k + x * 8 + y * (8 * width.val) = 8 * (y * width.val + x) + 2 * k ∧
      (2 * k + x * 8 + y * (8 * width.val)) % 8 + 1 < 6) ∧
    (∀ pixels : List Rgba, pixels.length = width.val * height.val →
      ∀ x y, x < width.val → y < height.val →
      (bufferBytes pixels).length = 8 * (width.val * height.val) ∧
      ∃ p, pixels[y * width.val + x]? = some p ∧
        sliceRead pixels ⟨.HALF, 0, 8, 8 * width.val⟩ x y = some p.r ∧
        sliceRead pixels ⟨.HALF, 2, 8, 8 * width.val⟩ x y = some p.g ∧
        sliceRead pixels ⟨.HALF, 4, 8, 8 * width.val⟩ x y = some p.b) ∧
    (∀ k x y k' x' y', k < 3 → x < width.val → y < height.val →
      k' < 3 → x' < width.val → y' < height.val →
      (k, x, y) ≠ (k', x', y') →
      2 * k + x * 8 + y * (8 * width.val) + 2 ≤ 2 * k' + x' * 8 + y' * (8 * width.val) ∨
      2 * k' + x' * 8 + y' * (8 * width.val) + 2 ≤ 2 * k + x * 8 + y * (8 * width.val)) := by
  obtain ⟨w, hwdef⟩ : ∃ w : Nat, w = width.val := ⟨_, rfl⟩
  obtain ⟨h, hhdef⟩ : ∃ h : Nat, h = height.val := ⟨_, rfl⟩
  have hfit : 8 * w < 2 ^ t.sizeBits := by
    have h1 := two_pow_sizeBits_ge t
    have h2 := width.isLt
    omega
  rw [← hwdef, ← hhdef]
  have hoff : ∀ k x y : Nat, 2 * k + x * 8 + y * (8 * w) = 8 * (y * w + x) + 2 * k := by
    intro k x y; ring
  refine ⟨by rw [buildFrameBuffer_eq, rowStride_eq t w hfit], ?_, ?_, ?_⟩
  · intro k x y hk hx hy
    have hlt := pixel_index_lt w h x y hx hy
    rw [hoff]
    refine ⟨by omega, rfl, by omega⟩
  · intro pixels hlen x y hx hy
    have hlt := pixel_index_lt w h x y hx hy
    obtain ⟨p, hp⟩ : ∃ p, pixels[y * w + x]? = some p :=
      ⟨_, List.getElem?_eq_getElem (by omega)⟩
    obtain ⟨fR, fG, fB, _⟩ := loadHalf_fields pixels (y * w + x) p hp
    refine ⟨by rw [bufferBytes_length, hlen], p, hp, ?_, ?_, ?_⟩
    · show loadHalf (bufferBytes pixels) (0 + x * 8 + y * (8 * w)) = _
      have e := hoff 0 x y
      rw [Nat.mul_zero, Nat.add_zero] at e
      rw [e]; exact fR
    · show loadHalf (bufferBytes pixels) (2 + x * 8 + y * (8 * w)) = _
      have e := hoff 1 x y
      rw [Nat.mul_one] at e
      rw [e]; exact fG
    · show loadHalf (bufferBytes pixels) (4 + x * 8 + y * (8 * w)) = _
      have e := hoff 2 x y
      rw [e]; exact fB
  · intro k x y k' x' y' hk hx hy hk' hx' hy' hne
    rw [hoff k x y, hoff k' x' y']
    by_cases hn : y * w + x = y' * w + x'
    · obtain ⟨hy2, hx2⟩ := pixel_index_inj w x y x' y' hx hx' hn
      subst hy2 hx2
      have hkk : k ≠ k' := fun h => hne (by rw [h])
      omega
    · omega

/-- Witness for C13: a 3×2 image on a 32-bit target. -/
theorem bindings_layout_witness :
    (0 < (3 : UShort).val ∧ 0 < (2 : UShort).val) ∧
    (buildFrameBuffer .bits32 ((3 : UShort).val : Int) =
      [("R", ⟨.HALF, 0, 8, 8 * (3 : UShort).val⟩), ("G", ⟨.HALF, 2, 8, 8 * (3 : UShort).val⟩),
        ("B", ⟨.HALF, 4, 8, 8 * (3 : UShort).val⟩)] ∧
    (∀ k x y, k < 3 → x < (3 : UShort).val → y < (2 : UShort).val →
      2 * k + x * 8 + y * (8 * (3 : UShort).val) + 2 ≤ 8 * ((3 : UShort).val * (2 : UShort).val) ∧
      2 * k + x * 8 + y * (8 * (3 : UShort).val) = 8 * (y * (3 : UShort).val + x) + 2 * k ∧
      (2 * k + x * 8 + y * (8 * (3 : UShort).val)) % 8 + 1 < 6) ∧
    (∀ pixels : List Rgba, pixels.length = (3 : UShort).val * (2 : UShort).val →
      ∀ x y, x < (3 : UShort).val → y < (2 : UShort).val →
      (bufferBytes pixels).length = 8 * ((3 : UShort).val * (2 : UShort).val) ∧
      ∃ p, pixels[y * (3 : UShort).val + x]? = some p ∧
        sliceRead pixels ⟨.HALF, 0, 8, 8 * (3 : UShort).val⟩ x y = some p.r ∧
        sliceRead pixels ⟨.HALF, 2, 8, 8 * (3 : UShort).val⟩ x y = some p.g ∧
        sliceRead pixels ⟨.HALF, 4, 8, 8 * (3 : UShort).val⟩ x y = some p.b) ∧
    (∀ k x y k' x' y', k < 3 → x < (3 : UShort).val → y < (2 : UShort).val →
      k' < 3 → x' < (3 : UShort).val → y' < (2 : UShort).val →
      (k, x, y) ≠ (k', x', y') →
      2 * k + x * 8 + y * (8 * (3 : UShort).val) + 2 ≤
        2 * k' + x' * 8 + y' * (8 * (3 : UShort).val) ∨
      2 * k' + x' * 8 + y' * (8 * (3 : UShort).val) + 2 ≤
        2 * k + x * 8 + y * (8 * (3 : UShort).val))) :=
  ⟨⟨by decide, by decide⟩, bindings_layout .bits32 3 2 (by decide) (by decide)⟩

theorem log_entry (w h srclen : Nat) (log : List (Int × Int)) (hsrc : srclen = w * h * 3)
    (hlog : ∀ r c, r < h → c < w →
      log[(h - 1 - r) * w + c]? =
        some ((((h - 1 - r) * w + c : Nat) : Int), (((r * w + c) * 3 : Nat) : Int)))
    (n : Nat) (hn : n < w * h) :
    ∃ r c, r < h ∧ c < w ∧ n = (h - 1 - r) * w + c ∧
      log[n]? = some ((n : Int), (((r * w + c) * 3 : Nat) : Int)) ∧
      (r * w + c) * 3 + 2 < srclen := by
  have hwpos : 0 < w := Nat.pos_of_mul_pos_right (Nat.lt_of_le_of_lt (Nat.zero_le n) hn)
  obtain ⟨q, hq0⟩ : ∃ q : Nat, q = n / w := ⟨_, rfl⟩
  obtain ⟨c, hc0⟩ : ∃ c : Nat, c = n % w := ⟨_, rfl⟩
  have hq : q < h := by
    rw [hq0, Nat.div_lt_iff_lt_mul hwpos, Nat.mul_comm]; exact hn
  have hc : c < w := by rw [hc0]; exact Nat.mod_lt n hwpos
  have hdm : q * w + c = n := by rw [hq0, hc0, Nat.mul_comm]; exact Nat.div_add_mod n w
  have hr : h - 1 - (h - 1 - q) = q := by omega
  have hl := hlog (h - 1 - q) c (by omega) hc
  rw [hr, hdm] at hl
  have hb := pixel_index_lt w h c (h - 1 - q) hc (by omega)
  exact ⟨h - 1 - q, c, by omega, hc, by rw [hr, hdm], hl, by omega⟩

/-- C14: when `width*height*3` does not overflow and the source holds exactly
that many samples, the remap loop terminates without any access out of bounds:
its `n`-th iteration writes destination index `n = (h-1-r)*w + c < w*h` from
source indices `(r*w + c)*3 + k < w*h*3`, so the destination indices written
are 0, 1, ..., `w*h - 1`, each exactly once, and nothing is written when `w` or
`h` is 0. -/
theorem remap_safe (heap : Nat → Rgba) (width height : UShort) (src : List Half)
    (hsrc : src.length = width.val * height.val * 3)
    (hfit : width.val * height.val * 3 < 2147483648) :
    ∃ d, remap heap width height src = .ok d ∧
      d.log.map Prod.fst = (List.range (width.val * height.val)).map Int.ofNat ∧
      (∀ n, n < width.val * height.val →
        ∃ r c, r < height.val ∧ c < width.val ∧ n = (height.val - 1 - r) * width.val + c ∧
          d.log[n]? = some ((n : Int), (((r * width.val + c) * 3 : Nat) : Int)) ∧
          (r * width.val + c) * 3 + 2 < src.length) ∧
      (width.val = 0 ∨ height.val = 0 → d.log = []) := by
  obtain ⟨d, hrun, _, _, hll, hlog⟩ := remap_spec heap width height src (by omega) (by omega)
  have hentry := log_entry width.val height.val src.length d.log hsrc hlog
  have hcomm : height.val * width.val = width.val * height.val := Nat.mul_comm _ _
  refine ⟨d, hrun, ?_, hentry, ?_⟩
  · apply List.ext_getElem?
    intro n
    by_cases hn : n < width.val * height.val
    · obtain ⟨r, c, _, _, _, hl, _⟩ := hentry n hn
      rw [List.getElem?_map, hl, List.getElem?_map, List.getElem?_range hn]
      rfl
    · rw [List.getElem?_eq_none (by rw [List.length_map, hll]; omega),
        List.getElem?_eq_none (by rw [List.length_map, List.length_range]; omega)]
  · intro hz
    apply List.eq_nil_of_length_eq_zero
    rw [hll]
    rcases hz with hz | hz <;> rw [hz] <;> simp

/-- Witness for C14: the 1×2 image. -/
theorem remap_safe_witness :
    (([10, 11, 12, 20, 21, 22] : List Half).length = (1 : UShort).val * (2 : UShort).val * 3 ∧
      (1 : UShort).val * (2 : UShort).val * 3 < 2147483648) ∧
    ∃ d, remap zeroRgba 1 2 [10, 11, 12, 20, 21, 22] = .ok d ∧
      d.log.map Prod.fst = (List.range ((1 : UShort).val * (2 : UShort).val)).map Int.ofNat ∧
      (∀ n, n < (1 : UShort).val * (2 : UShort).val →
        ∃ r c, r < (2 : UShort).val ∧ c < (1 : UShort).val ∧
          n = ((2 : UShort).val - 1 - r) * (1 : UShort).val + c ∧
          d.log[n]? = some ((n : Int), (((r * (1 : UShort).val + c) * 3 : Nat) : Int)) ∧
          (r * (1 : UShort).val + c) * 3 + 2 < ([10, 11, 12, 20, 21, 22] : List Half).length) ∧
      ((1 : UShort).val = 0 ∨ (2 : UShort).val = 0 → d.log = []) :=
  ⟨⟨by decide, by decide⟩, remap_safe zeroRgba 1 2 [10, 11, 12, 20, 21, 22] (by decide)
    (by decide)⟩

/-! ## Claims about the file handle and about remapping twice -/

theorem fread_isOpen (t : Target) (size count : Nat) (f : FILE) :
    (fread t size count f).2.2.isOpen = f.isOpen ∧
      (fread t size count f).2.2.content = f.content :=
  ⟨rfl, rfl⟩

/-- C15 (amended): `loadTGAFile` never closes the stream it opens: whenever the
input file opens, the handle is still open when the function returns, on the
rejection path as on every other path; only when there is no filename or the
file does not open is no handle left behind. -/
theorem loadTGAFile_leaves_open (t : Target) (files : String → Option (List Byte))
    (mallocOk : Nat → Bool) (heap : Nat → Half) (bd0 : Byte) (filename : Option String)
    (w0 h0 : UShort) :
    (∀ name bytes, filename = some name → files name = some bytes →
      ∃ f, (loadTGAFile t files mallocOk heap bd0 filename w0 h0).infile = some f ∧
        f.isOpen = true ∧ f.content = bytes) ∧
    ((filename = none ∨ ∃ name, filename = some name ∧ files name = none) →
      (loadTGAFile t files mallocOk heap bd0 filename w0 h0).infile = none ∧
      (loadTGAFile t files mallocOk heap bd0 filename w0 h0).ret = .ok none) := by
  constructor
  · intro name bytes hf hfile
    subst hf
    obtain ⟨hc, ho, _⟩ := readHeader_stream t bd0 w0 h0 bytes
    rw [loadTGAFile_some t files mallocOk heap bd0 name w0 h0 bytes hfile]
    by_cases hb : (readHeader t bd0 w0 h0 ⟨bytes, 0, true⟩).bitdepth ≠ 48
    · rw [if_pos hb]
      exact ⟨_, rfl, ho, hc⟩
    · rw [if_neg hb, readPayload_def]
      obtain ⟨e1, e2⟩ := fread_isOpen t sizeofHalf
        (toSizeT t (sampleCount (readHeader t bd0 w0 h0 ⟨bytes, 0, true⟩).width
          (readHeader t bd0 w0 h0 ⟨bytes, 0, true⟩).height))
        (readHeader t bd0 w0 h0 ⟨bytes, 0, true⟩).infile
      exact ⟨_, rfl, e1.trans ho, e2.trans hc⟩
  · intro h
    rcases h with h | ⟨name, h, hfile⟩
    · subst h
      exact ⟨rfl, rfl⟩
    · subst h
      have e : loadTGAFile t files mallocOk heap bd0 (some name) w0 h0 =
          ⟨w0, h0, none, .ok none⟩ := by
        show (match files name with
          | none => (⟨w0, h0, none, .ok none⟩ : Loaded)
          | some bytes => _) = _
        rw [hfile]
      rw [e]
      exact ⟨rfl, rfl⟩

/-- Witness for C15: the complete 1×2 file, and a path that does not open. -/
theorem loadTGAFile_leaves_open_witness :
    (((some "in.tga" : Option String) = some "in.tga" ∧
        ((fun _ => some sampleFile) : String → Option (List Byte)) "in.tga" = some sampleFile) ∧
      ∃ f, (loadTGAFile .bits32 (fun _ => some sampleFile) (fun _ => true) (fun _ => 0) 0
          (some "in.tga") 0 0).infile = some f ∧ f.isOpen = true ∧ f.content = sampleFile) ∧
    (((some "gone.tga" : Option String) = none ∨
        ∃ name, (some "gone.tga" : Option String) = some name ∧
          ((fun _ => none) : String → Option (List Byte)) name = none) ∧
      (loadTGAFile .bits32 (fun _ => none) (fun _ => true) (fun _ => 0) 0 (some "gone.tga") 0
        0).infile = none ∧
      (loadTGAFile .bits32 (fun _ => none) (fun _ => true) (fun _ => 0) 0 (some "gone.tga") 0
        0).ret = .ok none) :=
  ⟨⟨⟨rfl, rfl⟩,
      (loadTGAFile_leaves_open .bits32 (fun _ => some sampleFile) (fun _ => true) (fun _ => 0) 0
        (some "in.tga") 0 0).1 "in.tga" sampleFile rfl rfl⟩,
    ⟨Or.inr ⟨"gone.tga", rfl, rfl⟩,
      (loadTGAFile_leaves_open .bits32 (fun _ => none) (fun _ => true) (fun _ => 0) 0
        (some "gone.tga") 0 0).2 (Or.inr ⟨"gone.tga", rfl, rfl⟩)⟩⟩

/-- Counterexample to C15 as stated: after `loadTGAFile` has rejected a 24-bit
header, and after it has returned the image of the complete 1×2 file, the
stream it opened is still open. -/
theorem loadTGAFile_leaves_open_counterexample :
    (loadTGAFile .bits32 (fun _ => some (headerBytes 1 0 2 0 24)) (fun _ => true) (fun _ => 0) 0
        (some "in.tga") 0 0).ret = .ok none ∧
      (loadTGAFile .bits32 (fun _ => some (headerBytes 1 0 2 0 24)) (fun _ => true) (fun _ => 0)
        0 (some "in.tga") 0 0).infile = some ⟨headerBytes 1 0 2 0 24, 18, true⟩ ∧
      (loadTGAFile .bits32 (fun _ => some sampleFile) (fun _ => true) (fun _ => 0) 0
        (some "in.tga") 0 0).ret = .ok (some [1, 2, 3, 4, 5, 6]) ∧
      (loadTGAFile .bits32 (fun _ => some sampleFile) (fun _ => true) (fun _ => 0) 0
        (some "in.tga") 0 0).infile = some ⟨sampleFile, 30, true⟩ :=
  ⟨rfl, rfl, rfl, rfl⟩

theorem rgbOf_length (ps : List Rgba) : (rgbOf ps).length = 3 * ps.length := by
  induction ps with
  | nil => rfl
  | cons p ps ih =>
    show (p.r :: p.g :: p.b :: rgbOf ps).length = _
    simp only [List.length_cons, ih]; omega

theorem rgbOf_cons (q : Rgba) (qs : List Rgba) :
    rgbOf (q :: qs) = q.r :: q.g :: q.b :: rgbOf qs := rfl

theorem rgbOf_getElem? (ps : List Rgba) (n : Nat) (p : Rgba) (hp : ps[n]? = some p) :
    (rgbOf ps)[n * 3]? = some p.r ∧ (rgbOf ps)[n * 3 + 1]? = some p.g ∧
      (rgbOf ps)[n * 3 + 2]? = some p.b := by
  induction ps generalizing n with
  | nil => simp at hp
  | cons q qs ih =>
    cases n with
    | zero =>
      simp only [List.getElem?_cons_zero, Option.some.injEq] at hp
      subst hp
      rw [rgbOf_cons]
      refine ⟨rfl, rfl, ?_⟩
      show (q.r :: q.g :: q.b :: rgbOf qs)[1 + 1]? = some q.b
      rw [List.getElem?_cons_succ, List.getElem?_cons_succ, List.getElem?_cons_zero]
    | succ n =>
      rw [List.getElem?_cons_succ] at hp
      obtain ⟨h0, h1, h2⟩ := ih n hp
      have e0 : (n + 1) * 3 = n * 3 + 1 + 1 + 1 := by omega
      have e1 : (n + 1) * 3 + 1 = n * 3 + 1 + 1 + 1 + 1 := by omega
      have e2 : (n + 1) * 3 + 2 = n * 3 + 2 + 1 + 1 + 1 := by omega
      rw [rgbOf_cons]
      refine ⟨?_, ?_, ?_⟩
      · rw [e0, List.getElem?_cons_succ, List.getElem?_cons_succ, List.getElem?_cons_succ]
        exact h0
      · rw [e1, List.getElem?_cons_succ, List.getElem?_cons_succ, List.getElem?_cons_succ]
        exact h1
      · rw [e2, List.getElem?_cons_succ, List.getElem?_cons_succ, List.getElem?_cons_succ]
        exact h2

theorem flip_decomp (w h n : Nat) (hn : n < w * h) :
    ∃ r c, r < h ∧ c < w ∧ n = (h - 1 - r) * w + c := by
  have hwpos : 0 < w := Nat.pos_of_mul_pos_right (Nat.lt_of_le_of_lt (Nat.zero_le n) hn)
  obtain ⟨q, hq0⟩ : ∃ q : Nat, q = n / w := ⟨_, rfl⟩
  obtain ⟨c, hc0⟩ : ∃ c : Nat, c = n % w := ⟨_, rfl⟩
  have hq : q < h := by
    rw [hq0, Nat.div_lt_iff_lt_mul hwpos, Nat.mul_comm]; exact hn
  have hc : c < w := by rw [hc0]; exact Nat.mod_lt n hwpos
  have hdm : q * w + c = n := by rw [hq0, hc0, Nat.mul_comm]; exact Nat.div_add_mod n w
  have hr : h - 1 - (h - 1 - q) = q := by omega
  exact ⟨h - 1 - q, c, by omega, hc, by rw [hr, hdm]⟩

theorem getD_of_getElem? {α : Type} (l : List α) (k : Nat) (v d : α) (h : l[k]? = some v) :
    l.getD k d = v := by
  rw [List.getD_eq_getElem?_getD, h]; rfl

/-- C16: for every `w`, `h` and source buffer of `w*h*3` samples that `main`
can hold (the allocation of line 55), remapping the colour fields of the
remapped buffer once more gives back the original samples in their original
order, with every alpha equal to `1.0`. -/
theorem remap_involution (t : Target) (heap heap' : Nat → Rgba) (width height : UShort)
    (src : List Half)
    (hbuf : src.length = allocBytes t width height / sizeofHalf)
    (hsrc : src.length = width.val * height.val * 3) :
    ∃ d1 d2, remap heap width height src = .ok d1 ∧
      remap heap' width height (rgbOf d1.pixels) = .ok d2 ∧
      rgbOf d2.pixels = src ∧ ∀ p ∈ d2.pixels, p.a = halfOne := by
  have hfit : width.val * height.val * 3 < 2147483648 :=
    alloc_fits t width height (by rw [← hbuf, hsrc])
  obtain ⟨d1, hrun1, hl1, hrow1, _, _⟩ := remap_spec heap width height src (by omega) (by omega)
  have hlen2 : (rgbOf d1.pixels).length = width.val * height.val * 3 := by
    rw [rgbOf_length, hl1]; omega
  obtain ⟨d2, hrun2, hl2, hrow2, _, _⟩ := remap_spec heap' width height (rgbOf d1.pixels)
    (by omega) (by omega)
  have hpix : ∀ n, n < width.val * height.val →
      ∃ p, d2.pixels[n]? = some p ∧ src[n * 3]? = some p.r ∧ src[n * 3 + 1]? = some p.g ∧
        src[n * 3 + 2]? = some p.b ∧ p.a = halfOne := by
    intro n hn
    obtain ⟨r, c, hr, hc, hnrc⟩ := flip_decomp width.val height.val n hn
    have hrr : height.val - 1 - (height.val - 1 - r) = r := by omega
    have h2 := hrow2 r c hr hc
    have h1 := hrow1 (height.val - 1 - r) c (by omega) hc
    rw [hrr] at h1
    obtain ⟨g0, g1, g2⟩ := rgbOf_getElem? d1.pixels _ _ h1
    have hb := flip_index_lt width.val height.val r c hr hc
    rw [← hnrc] at h2 hb
    refine ⟨_, h2, ?_, ?_, ?_, rfl⟩
    · show src[n * 3]? = some ((rgbOf d1.pixels).getD ((r * width.val + c) * 3) 0)
      rw [getD_of_getElem? _ _ _ 0 g0, hnrc]
      exact getElem?_eq_some_getD src _ 0 (by omega)
    · show src[n * 3 + 1]? = some ((rgbOf d1.pixels).getD ((r * width.val + c) * 3 + 1) 0)
      rw [getD_of_getElem? _ _ _ 0 g1, hnrc]
      exact getElem?_eq_some_getD src _ 0 (by omega)
    · show src[n * 3 + 2]? = some ((rgbOf d1.pixels).getD ((r * width.val + c) * 3 + 2) 0)
      rw [getD_of_getElem? _ _ _ 0 g2, hnrc]
      exact getElem?_eq_some_getD src _ 0 (by omega)
  refine ⟨d1, d2, hrun1, hrun2, ?_, ?_⟩
  · apply List.ext_getElem?
    intro j
    by_cases hj : j < width.val * height.val * 3
    · obtain ⟨n, hn0⟩ : ∃ n : Nat, n = j / 3 := ⟨_, rfl⟩
      have hn : n < width.val * height.val := by omega
      obtain ⟨p, hp, s0, s1, s2, _⟩ := hpix n hn
      obtain ⟨t0, t1, t2⟩ := rgbOf_getElem? d2.pixels n p hp
      have hcase : j = n * 3 ∨ j = n * 3 + 1 ∨ j = n * 3 + 2 := by omega
      rcases hcase with e | e | e <;> rw [e]
      · rw [t0, s0]
      · rw [t1, s1]
      · rw [t2, s2]
    · rw [List.getElem?_eq_none (by rw [rgbOf_length, hl2]; omega),
        List.getElem?_eq_none (by omega)]
  · intro p hp
    obtain ⟨n, hn⟩ := List.mem_iff_getElem?.mp hp
    have hlt := length_gt_of_getElem? _ _ _ hn
    rw [hl2] at hlt
    obtain ⟨p', hp', _, _, _, ha⟩ := hpix n hlt
    rw [hn] at hp'
    simp only [Option.some.injEq] at hp'
    rw [hp']; exact ha

/-- Witness for C16: the 1×2 image. -/
theorem remap_involution_witness :
    (([10, 11, 12, 20, 21, 22] : List Half).length = allocBytes .bits64 1 2 / sizeofHalf ∧
      ([10, 11, 12, 20, 21, 22] : List Half).length = (1 : UShort).val * (2 : UShort).val * 3) ∧
    ∃ d1 d2, remap zeroRgba 1 2 [10, 11, 12, 20, 21, 22] = .ok d1 ∧
      remap zeroRgba 1 2 (rgbOf d1.pixels) = .ok d2 ∧
      rgbOf d2.pixels = [10, 11, 12, 20, 21, 22] ∧ ∀ p ∈ d2.pixels, p.a = halfOne :=
  ⟨⟨by decide, by decide⟩, remap_involution .bits64 zeroRgba zeroRgba 1 2
    [10, 11, 12, 20, 21, 22] (by decide) (by decide)⟩

end Tga2Exr
